import Mathlib

/-!
Verification development for the TOON codec (toon-utils): a bidirectional
codec between a line-oriented, indentation-based text encoding and the JSON
data model.  The definitions below are a shallow embedding of the TypeScript
sources (`src/utils/string-utils.ts`, `src/utils/parse-utils.ts`,
`src/parsers/array-parser.ts`, the path expander, `src/encoder.ts` and the
`ToonParser` entry point).  JavaScript numbers are modelled as exact
rationals (`Rat`); thrown `Error`s are modelled by an explicit error type
carried in `Except`.
-/

namespace Toon

/-- The three array delimiters of the format: comma, tab, pipe. -/
inductive Delim where
  | comma
  | tab
  | pipe
deriving DecidableEq, Repr

/-- The character a delimiter stands for. -/
def Delim.char : Delim → Char
  | .comma => ','
  | .tab => '\t'
  | .pipe => '|'

/-- Errors thrown by the codec (`throw new Error(...)` sites), with their
distinguishing payloads.  `outOfFuel` is the artefact of modelling the
parser's loops with fuel; it corresponds to no source error. -/
inductive ToonErr where
  | tabsInIndent (line : Nat)
  | badIndent (line : Nat) (indentSize : Nat)
  | invalidEscape (c : Char)
  | missingColon (line : Nat)
  | inlineLengthMismatch (expected : Int) (got : Nat)
  | tabularWidthMismatch (expected : Nat) (got : Nat)
  | tabularLengthMismatch (expected : Int) (got : Nat)
  | listLengthMismatch (expected : Int) (got : Nat)
  | expansionConflict (path : String)
  | expansionDuplicate (key : String)
  | rangeError
  | outOfFuel
deriving DecidableEq, Repr

/-- Whether an error is one of the strict-mode length/width mismatch errors
of the array parser. -/
def ToonErr.isLenErr : ToonErr → Bool
  | .inlineLengthMismatch _ _ => true
  | .tabularWidthMismatch _ _ => true
  | .tabularLengthMismatch _ _ => true
  | .listLengthMismatch _ _ => true
  | _ => false

/-- Whether an error is one of the path expander's strict-mode conflict
errors (`Expansion conflict ... (object vs ...)` or `(duplicate key)`). -/
def ToonErr.isConflictErr : ToonErr → Bool
  | .expansionConflict _ => true
  | .expansionDuplicate _ => true
  | _ => false

/-- The JSON data model: null, booleans, finite numbers (modelled as exact
rationals), strings, arrays, and insertion-ordered objects. -/
inductive Json where
  | null
  | bool (b : Bool)
  | num (q : Rat)
  | str (s : String)
  | arr (xs : List Json)
  | obj (kvs : List (String × Json))

mutual

/-- Structural equality test for JSON values (deep equality). -/
def Json.beq : Json → Json → Bool
  | .null, .null => true
  | .bool x, .bool y => decide (x = y)
  | .num x, .num y => decide (x = y)
  | .str x, .str y => decide (x = y)
  | .arr xs, .arr ys => Json.beqList xs ys
  | .obj xs, .obj ys => Json.beqKvs xs ys
  | _, _ => false

/-- Deep equality on lists of JSON values. -/
def Json.beqList : List Json → List Json → Bool
  | [], [] => true
  | x :: xs, y :: ys => Json.beq x y && Json.beqList xs ys
  | _, _ => false

/-- Deep equality on key-value lists. -/
def Json.beqKvs : List (String × Json) → List (String × Json) → Bool
  | [], [] => true
  | (k, v) :: xs, (l, w) :: ys =>
      decide (k = l) && Json.beq v w && Json.beqKvs xs ys
  | _, _ => false

end

mutual

theorem Json.eq_of_beq : ∀ (a b : Json), Json.beq a b = true → a = b
  | .null, b, h => by cases b <;> first | rfl | exact Bool.noConfusion h
  | .bool x, b, h => by
      cases b <;> try exact Bool.noConfusion h
      exact congrArg Json.bool (of_decide_eq_true h)
  | .num x, b, h => by
      cases b <;> try exact Bool.noConfusion h
      exact congrArg Json.num (of_decide_eq_true h)
  | .str x, b, h => by
      cases b <;> try exact Bool.noConfusion h
      exact congrArg Json.str (of_decide_eq_true h)
  | .arr xs, b, h => by
      cases b <;> try exact Bool.noConfusion h
      exact congrArg Json.arr (Json.eqList_of_beqList xs _ h)
  | .obj xs, b, h => by
      cases b <;> try exact Bool.noConfusion h
      exact congrArg Json.obj (Json.eqKvs_of_beqKvs xs _ h)

theorem Json.eqList_of_beqList : ∀ (xs ys : List Json),
    Json.beqList xs ys = true → xs = ys
  | [], [], _ => rfl
  | [], _ :: _, h => Bool.noConfusion h
  | _ :: _, [], h => Bool.noConfusion h
  | x :: xs, y :: ys, h => by
      have h' := h
      simp only [Json.beqList, Bool.and_eq_true] at h'
      exact congrArg₂ List.cons (Json.eq_of_beq x y h'.1)
        (Json.eqList_of_beqList xs ys h'.2)

theorem Json.eqKvs_of_beqKvs : ∀ (xs ys : List (String × Json)),
    Json.beqKvs xs ys = true → xs = ys
  | [], [], _ => rfl
  | [], _ :: _, h => Bool.noConfusion h
  | _ :: _, [], h => Bool.noConfusion h
  | (k, v) :: xs, (l, w) :: ys, h => by
      have h' := h
      simp only [Json.beqKvs, Bool.and_eq_true] at h'
      have hk : k = l := of_decide_eq_true h'.1.1
      have hv : v = w := Json.eq_of_beq v w h'.1.2
      exact congrArg₂ List.cons (by rw [hk, hv]) (Json.eqKvs_of_beqKvs xs ys h'.2)

end

mutual

theorem Json.beq_refl : ∀ (a : Json), Json.beq a a = true
  | .null => rfl
  | .bool x => by simp [Json.beq]
  | .num x => by simp [Json.beq]
  | .str x => by simp [Json.beq]
  | .arr xs => Json.beqList_refl xs
  | .obj xs => Json.beqKvs_refl xs

theorem Json.beqList_refl : ∀ (xs : List Json), Json.beqList xs xs = true
  | [] => rfl
  | x :: xs => by
      simp only [Json.beqList, Bool.and_eq_true]
      exact ⟨Json.beq_refl x, Json.beqList_refl xs⟩

theorem Json.beqKvs_refl : ∀ (xs : List (String × Json)), Json.beqKvs xs xs = true
  | [] => rfl
  | (k, v) :: xs => by
      simp only [Json.beqKvs, Bool.and_eq_true]
      exact ⟨⟨by simp, Json.beq_refl v⟩, Json.beqKvs_refl xs⟩

end

instance : DecidableEq Json := fun a b =>
  decidable_of_iff (Json.beq a b = true)
    ⟨Json.eq_of_beq a b, fun h => h ▸ Json.beq_refl a⟩

mutual

/-- Node count of a JSON value (used to bound recursion depths). -/
def jsonSize : Json → Nat
  | .arr xs => 1 + jsonSizeList xs
  | .obj kvs => 1 + jsonSizeKvs kvs
  | _ => 1

/-- Node count of a list of JSON values. -/
def jsonSizeList : List Json → Nat
  | [] => 1
  | x :: xs => 1 + jsonSize x + jsonSizeList xs

/-- Node count of a key-value list. -/
def jsonSizeKvs : List (String × Json) → Nat
  | [] => 1
  | (k, v) :: xs => 1 + k.length + jsonSize v + jsonSizeKvs xs

end

instance {ε α : Type} [DecidableEq ε] [DecidableEq α] :
    DecidableEq (Except ε α) := fun a b =>
  match a, b with
  | .ok x, .ok y =>
    if h : x = y then isTrue (by rw [h]) else isFalse (by simp [h])
  | .error x, .error y =>
    if h : x = y then isTrue (by rw [h]) else isFalse (by simp [h])
  | .ok _, .error _ => isFalse (by simp)
  | .error _, .ok _ => isFalse (by simp)

theorem exceptBind_ok {α β : Type} (x : α) (f : α → Except ToonErr β) :
    (Except.ok x >>= f) = f x := rfl

theorem exceptBind_error {α β : Type} (e : ToonErr) (f : α → Except ToonErr β) :
    ((Except.error e : Except ToonErr α) >>= f) = .error e := rfl

theorem exceptMap_ok {α β : Type} (g : α → β) (x : α) :
    (g <$> (Except.ok x : Except ToonErr α)) = .ok (g x) := rfl

theorem exceptMap_error {α β : Type} (g : α → β) (e : ToonErr) :
    (g <$> (Except.error e : Except ToonErr α)) = .error e := rfl

/-- JavaScript whitespace for `String.prototype.trim` (the common subset:
space, tab, LF, CR, VT, FF, NBSP, BOM). -/
def jsWs (c : Char) : Bool :=
  c = ' ' || c = '\t' || c = '\n' || c = '\r' || c = '\x0b' || c = '\x0c' ||
  c = ' ' || c = '﻿'

/-- Drop leading JS whitespace. -/
def trimLeftL (cs : List Char) : List Char := cs.dropWhile jsWs

/-- Drop trailing JS whitespace. -/
def trimRightL (cs : List Char) : List Char := (cs.reverse.dropWhile jsWs).reverse

/-- JS `String.prototype.trim` on a character list. -/
def jsTrimL (cs : List Char) : List Char := trimRightL (trimLeftL cs)

/-- JS `String.prototype.trim`. -/
def jsTrim (s : String) : String := String.mk (jsTrimL s.data)

/-! ### Regex constants of `string-utils.ts`

`LEADING_ZEROS_REGEX = /^0\d+$/`, `NUMBER_REGEX =
/^-?\d+(?:\.\d+)?(?:e[+-]?\d+)?$/i`, `IDENTIFIER_REGEX =
/^[A-Za-z_][A-Za-z0-9_]*$/`, `KEY_REGEX = /^[A-Za-z_][A-Za-z0-9_.]*$/`,
realised as decidable character-list predicates. -/

/-- Match of `LEADING_ZEROS_REGEX`: a `0` followed by one or more digits. -/
def leadingZerosMatch (cs : List Char) : Bool :=
  match cs with
  | '0' :: rest => !rest.isEmpty && rest.all Char.isDigit
  | _ => false

/-- The decomposed match of `NUMBER_REGEX`: sign, integer digits, optional
fraction digits, optional exponent sign and digits. -/
structure NumParts where
  neg : Bool
  intDigits : List Char
  fracDigits : List Char
  expNeg : Bool
  expDigits : List Char
deriving DecidableEq

/-- Consume one-or-more digits; return them and the remainder. -/
def takeDigits1 (cs : List Char) : Option (List Char × List Char) :=
  let ds := cs.takeWhile Char.isDigit
  if ds.isEmpty then none else some (ds, cs.drop ds.length)

/-- Deterministic match of `NUMBER_REGEX` (greedy matching is equivalent to
the regex here, since no backtracking alternative can succeed). -/
def parseNumberShape (cs : List Char) : Option NumParts := do
  let (neg, cs1) := match cs with
    | '-' :: rest => (true, rest)
    | _ => (false, cs)
  let (intDs, r1) ← takeDigits1 cs1
  let (fracDs, r2) ← match r1 with
    | '.' :: rest => (fun p => (p.1, p.2)) <$> takeDigits1 rest
    | _ => some (([] : List Char), r1)
  let (expNeg, expDs, r3) ← match r2 with
    | e :: rest =>
      if e = 'e' || e = 'E' then
        let (sNeg, rest') := match rest with
          | '+' :: r => (false, r)
          | '-' :: r => (true, r)
          | _ => (false, rest)
        (fun p => (sNeg, p.1, p.2)) <$> takeDigits1 rest'
      else none
    | [] => some (false, ([] : List Char), ([] : List Char))
  if r3.isEmpty then some ⟨neg, intDs, fracDs, expNeg, expDs⟩ else none

/-- Test of `NUMBER_REGEX`. -/
def numberRegexMatch (cs : List Char) : Bool := (parseNumberShape cs).isSome

/-- Numeric value of a digit list. -/
def digitsToNat (ds : List Char) : Nat :=
  ds.foldl (fun n c => 10 * n + (c.toNat - '0'.toNat)) 0

/-- The exact rational `m * 10 ^ e`. -/
def mkDecimal (m : Int) (e : Int) : Rat :=
  if 0 ≤ e then ((m * ((10 ^ e.toNat : Nat) : Int) : Int) : Rat)
  else (m : Rat) / (((10 ^ (-e).toNat : Nat) : Int) : Rat)

/-- The exact value denoted by a `NUMBER_REGEX` match.  JavaScript's
`Number(...)` rounds this value to the nearest IEEE-754 double; the claims
below only involve values that are exactly representable, so the exact
rational is used as the model. -/
def numPartsValue (p : NumParts) : Rat :=
  let mant : Int := (digitsToNat (p.intDigits ++ p.fracDigits) : Int)
  let mant : Int := if p.neg then -mant else mant
  let expo : Int := (if p.expNeg then -(digitsToNat p.expDigits : Int)
    else (digitsToNat p.expDigits : Int)) - (p.fracDigits.length : Int)
  mkDecimal mant expo

/-- The IEEE-754 double overflow threshold `2^1024 - 2^970`: values whose
magnitude reaches it round to infinity. -/
def dblOverflow : Rat := (((2 ^ 1024 - 2 ^ 970 : Nat) : Int) : Rat)

/-- Model of JavaScript `isFinite` on the exact value: the magnitude is below
the overflow threshold. -/
def isFiniteDouble (q : Rat) : Bool :=
  decide (-dblOverflow < q) && decide (q < dblOverflow)

/-! ### `unescapeString` / `parseKey` / `parsePrimitive` -/

/-- Scanner of `unescapeString`: `\\`, `\"`, `\n`, `\r`, `\t` are decoded; any
other sequence after a backslash errors in strict mode and is passed through
verbatim otherwise; a trailing backslash is kept verbatim (the source's
`i + 1 < str.length` guard).  The source's slice-batching fast path is an
optimization with the same result. -/
def unescapeCore (strict : Bool) : List Char → Except ToonErr (List Char)
  | [] => .ok []
  | c :: rest =>
    if c = '\\' then
      match rest with
      | [] => .ok ['\\']
      | d :: rest2 =>
        if d = '\\' then (fun t => '\\' :: t) <$> unescapeCore strict rest2
        else if d = '"' then (fun t => '"' :: t) <$> unescapeCore strict rest2
        else if d = 'n' then (fun t => '\n' :: t) <$> unescapeCore strict rest2
        else if d = 'r' then (fun t => '\r' :: t) <$> unescapeCore strict rest2
        else if d = 't' then (fun t => '\t' :: t) <$> unescapeCore strict rest2
        else if strict then .error (.invalidEscape d)
        else (fun t => '\\' :: d :: t) <$> unescapeCore strict rest2
    else (fun t => c :: t) <$> unescapeCore strict rest

/-- `unescapeString(str, strict = true)`. -/
def unescapeString (s : String) (strict : Bool := true) : Except ToonErr String :=
  String.mk <$> unescapeCore strict s.data

/-- Whether the span starts and ends with a double quote (JS
`startsWith('"') && endsWith('"')`; a single `"` satisfies both). -/
def quotedSpan (cs : List Char) : Bool :=
  match cs with
  | [] => false
  | c :: _ => c = '"' && cs.getLastD ' ' = '"'

/-- JS `str.slice(1, -1)`. -/
def sliceInner (cs : List Char) : List Char := (cs.drop 1).dropLast

/-- `parseKey`: strip and unescape a quoted key (always strict, the source
passes no second argument to `unescapeString`). -/
def parseKey (key : String) : Except ToonErr String :=
  if quotedSpan key.data then
    String.mk <$> unescapeCore true (sliceInner key.data)
  else .ok key

/-- `parsePrimitive`: trim, then quoted string / boolean / null /
leading-zero string / number / verbatim string, in source order. -/
def parsePrimitive (value : String) : Except ToonErr Json :=
  let t := jsTrimL value.data
  -- Quoted string (charCodeAt(0) == 34 and charCodeAt(len-1) == 34)
  if quotedSpan t then
    (fun cs => Json.str (String.mk cs)) <$> unescapeCore true (sliceInner t)
  else
    -- Boolean/null, behind the source's length switch
    let lit : Option Json :=
      if t.length = 4 then
        if t = "true".data then some (.bool true)
        else if t = "null".data then some .null
        else none
      else if t.length = 5 then
        if t = "false".data then some (.bool false) else none
      else none
    match lit with
    | some v => .ok v
    | none =>
      if leadingZerosMatch t then .ok (.str (String.mk t))
      else
        match parseNumberShape t with
        | some parts =>
          let q := numPartsValue parts
          if isFiniteDouble q then .ok (.num q) else .ok (.str (String.mk t))
        | none => .ok (.str (String.mk t))

/-! ### `splitDelimited` / `findUnquotedColon` -/

/-- Scanner of `splitDelimited`: a backslash copies itself and the next
character verbatim, a quote toggles the in-quotes flag and is copied, an
unquoted delimiter splits, anything else is copied. -/
def splitCore (d : Char) : List Char → Bool → List Char → List (List Char)
  | [], _, cur => [cur]
  | c :: rest, inQ, cur =>
    if c = '\\' then
      match rest with
      | c2 :: rest2 => splitCore d rest2 inQ (cur ++ ['\\', c2])
      | [] =>
        -- i + 1 = length: the escape branch is skipped and the character
        -- falls through to the quote/delimiter/default checks
        if !inQ && '\\' = d then [cur, []] else [cur ++ ['\\']]
    else if c = '"' then splitCore d rest (!inQ) (cur ++ ['"'])
    else if !inQ && c = d then cur :: splitCore d rest inQ []
    else splitCore d rest inQ (cur ++ [c])

/-- `splitDelimited(str, delimiter)`. -/
def splitDelimited (s : String) (d : Delim) : List String :=
  (splitCore d.char s.data false []).map String.mk

/-- Scanner of `findUnquotedColon`. -/
def colonCore : List Char → Bool → Bool → Nat → Option Nat
  | [], _, _, _ => none
  | c :: rest, inQ, escaped, i =>
    if escaped then colonCore rest inQ false (i + 1)
    else if c = '\\' then colonCore rest inQ true (i + 1)
    else if c = '"' then colonCore rest (!inQ) false (i + 1)
    else if !inQ && c = ':' then some i
    else colonCore rest inQ false (i + 1)

/-- `findUnquotedColon` (`-1` is modelled as `none`). -/
def findUnquotedColon (s : String) : Option Nat := colonCore s.data false false 0

/-! ### Identifier predicates / `escapeString` / quoting -/

/-- First character of `IDENTIFIER_REGEX`. -/
def identStart (c : Char) : Bool := c.isAlpha || c = '_'

/-- Later characters of `IDENTIFIER_REGEX`. -/
def identChar (c : Char) : Bool := c.isAlphanum || c = '_'

/-- Test of `IDENTIFIER_REGEX`. -/
def identifierMatch (cs : List Char) : Bool :=
  match cs with
  | [] => false
  | c :: rest => identStart c && rest.all identChar

/-- Test of `KEY_REGEX` (identifier characters plus dots after the first). -/
def keyRegexMatch (cs : List Char) : Bool :=
  match cs with
  | [] => false
  | c :: rest => identStart c && rest.all (fun d => identChar d || d = '.')

/-- JS `String.prototype.split` with a single-character separator. -/
def splitListOn (sep : Char) : List Char → List (List Char)
  | [] => [[]]
  | c :: rest =>
    if c = sep then [] :: splitListOn sep rest
    else
      match splitListOn sep rest with
      | g :: gs => (c :: g) :: gs
      | [] => [[c]]

/-- `isIdentifierSegments`: every dot-separated segment matches
`IDENTIFIER_REGEX`. -/
def isIdentifierSegments (key : String) : Bool :=
  (splitListOn '.' key.data).all identifierMatch

/-- Escape one character for `escapeString` (the source's chained global
replaces are equivalent to this single per-character pass). -/
def escChar (c : Char) : List Char :=
  if c = '\\' then ['\\', '\\']
  else if c = '"' then ['\\', '"']
  else if c = '\n' then ['\\', 'n']
  else if c = '\r' then ['\\', 'r']
  else if c = '\t' then ['\\', 't']
  else [c]

/-- `escapeString`. -/
def escapeString (value : String) : String :=
  String.mk (value.data.map escChar).flatten

/-- The character-scan loop of `needsQuoting` (the source compares char
codes; the literals here are those characters: 58 `:`, 34 `"`, 92 `\ `, 91
`[`, 93 `]`, 123 and 125 the curly braces, 10 LF, 13 CR, 9 TAB). -/
def specialScan (dch : Char) : List Char → Bool
  | [] => false
  | c :: rest =>
    if c = ':' || c = '"' || c = '\\' || c = '[' || c = ']' || c = '\x7b' ||
        c = '\x7d' || c = '\n' || c = '\r' || c = '\t' || c = dch then true
    else specialScan dch rest

/-- `needsQuoting(value, delimiter)`. -/
def needsQuoting (value : String) (delimiter : Delim) : Bool :=
  let cs := value.data
  if cs.isEmpty || !(jsTrimL cs == cs) then true
  else if value == "true" || value == "false" || value == "null" ||
      value == "-" then true
  else if numberRegexMatch cs || leadingZerosMatch cs then true
  else if cs.headD ' ' = '-' then true  -- charCodeAt(0) === 45
  else specialScan delimiter.char cs

/-- `quoteString`. -/
def quoteString (value : String) (delimiter : Delim) : String :=
  if needsQuoting value delimiter then "\"" ++ escapeString value ++ "\""
  else value

/-- `encodeKey`: keys matching `KEY_REGEX` are emitted verbatim. -/
def encodeKey (key : String) (delimiter : Delim) : String :=
  if keyRegexMatch key.data then key else quoteString key delimiter

/-! ### `canonicalNumber` -/

/-- The digit character for `n < 10`. -/
def digitChar (n : Nat) : Char := Char.ofNat ('0'.toNat + n)

/-- Decimal digits of a natural number (most significant first), with fuel. -/
def natDigitsAux : Nat → Nat → List Char
  | 0, _ => []
  | fuel + 1, n =>
    if n < 10 then [digitChar n]
    else natDigitsAux fuel (n / 10) ++ [digitChar (n % 10)]

/-- Decimal digits of a natural number. -/
def natDigits (n : Nat) : List Char := natDigitsAux (n + 1) n

/-- Multiplicity of a factor `p` in `n`, together with the cofactor. -/
def factorMult (p : Nat) : Nat → Nat → Nat × Nat
  | 0, n => (0, n)
  | fuel + 1, n =>
    if n % p = 0 && n ≠ 0 && 1 < p then
      let (k, m) := factorMult p fuel (n / p)
      (k + 1, m)
    else (0, n)

/-- `canonicalNumber(n)`.  The source renders `n.toString()` (the shortest
decimal notation of the IEEE double), expands any exponential notation via
`toFixed(20)` and strips superfluous trailing zeros and trailing points.  On
the exact-rational number model this is the exact decimal expansion without
an exponent; rationals without a finite decimal expansion do not arise from
parsing and get a fallback.  Negative zero does not exist in `Rat`
(the source maps it to `"0"`, as does `q = 0` here). -/
def canonicalNumber (q : Rat) : String :=
  if q = 0 then "0"
  else
    let (a, d2) := factorMult 2 q.den q.den
    let (b, d25) := factorMult 5 d2 d2
    if d25 ≠ 1 then "0"  -- no finite decimal expansion: unreachable here
    else
      let k := max a b
      let mant := q.num.natAbs * 10 ^ k / q.den
      let ds := natDigits mant
      let ds := List.replicate (k + 1 - ds.length) '0' ++ ds
      let whole := ds.take (ds.length - k)
      let frac := ds.drop (ds.length - k)
      let sign := if q.num < 0 then "-" else ""
      if k = 0 then sign ++ String.mk whole
      else sign ++ String.mk whole ++ "." ++ String.mk frac

/-! ### `parse-utils.ts` -/

/-- `isArrayHeader`: the line contains both brackets. -/
def isArrayHeader (content : String) : Bool :=
  content.data.contains '[' && content.data.contains ']'

/-- The parsed array header `key?[length delim?]{fields}?`. -/
structure ArrayHeader where
  key : Option String
  length : Int
  delimiter : Delim
  fields : Option (List String)
deriving DecidableEq

/-- JS `parseInt(s, 10) || 0`: leading whitespace, optional sign, maximal
digit run; no digits gives `NaN` which `|| 0` maps to `0` (as it does `-0`,
which is `0` in `Int` already). -/
def parseIntOr0 (cs : List Char) : Int :=
  let cs := cs.dropWhile jsWs
  let (neg, cs) := match cs with
    | '-' :: r => (true, r)
    | '+' :: r => (false, r)
    | _ => (false, cs)
  let ds := cs.takeWhile Char.isDigit
  if ds.isEmpty then 0
  else if neg then -(digitsToNat ds : Int) else (digitsToNat ds : Int)

/-- First match of the regex `\x7b([^\x7d]+)\x7d` (a brace pair with a
non-empty interior); on a failed attempt the scan restarts one character
further, like the regex engine. -/
def braceMatch : List Char → Option (List Char)
  | [] => none
  | c :: rest =>
    if c = '\x7b' then
      let pre := rest.takeWhile (fun d => d ≠ '\x7d')
      if !pre.isEmpty && pre.length < rest.length then some pre
      else braceMatch rest
    else braceMatch rest

/-- JS `replace(/:$/, '')`. -/
def stripTrailingColon (cs : List Char) : List Char :=
  match cs.getLast? with
  | some ':' => cs.dropLast
  | _ => cs

/-- `parseArrayHeader(content)` (it can throw through `parseKey` on the field
names). -/
def parseArrayHeader (content : String) : Except ToonErr ArrayHeader := do
  let cs := content.data
  match cs.findIdx? (· = '['), cs.findIdx? (· = ']') with
  | some bs, some be =>
    let key := if bs > 0 then some (String.mk (jsTrimL (cs.take bs))) else none
    let bracketContent := (cs.take be).drop (bs + 1)
    let (delimiter, lengthStr) :=
      match bracketContent.getLast? with
      | some '\t' => (Delim.tab, bracketContent.dropLast)
      | some '|' => (Delim.pipe, bracketContent.dropLast)
      | some ',' => (Delim.comma, bracketContent.dropLast)
      | _ => (Delim.comma, bracketContent)
    let length := parseIntOr0 lengthStr
    let afterBracket := stripTrailingColon (cs.drop (be + 1))
    let fields ← if afterBracket.contains '\x7b' then
        match braceMatch afterBracket with
        | some interior =>
          let raw := splitDelimited (String.mk interior) delimiter
          some <$> raw.mapM (fun f => parseKey (jsTrim f))
        | none => pure none
      else pure none
    return ⟨key, length, delimiter, fields⟩
  | _, _ => return ⟨none, 0, .comma, none⟩

/-- The leading-whitespace loop of `getDepth`: spaces count one, a tab is an
error in strict mode and counts `indentSize` otherwise, any other character
stops the scan. -/
def depthSpaces (strict : Bool) (lineNum indentSize : Nat) :
    List Char → Nat → Except ToonErr Nat
  | [], spaces => .ok spaces
  | c :: rest, spaces =>
    if c = ' ' then depthSpaces strict lineNum indentSize rest (spaces + 1)
    else if c = '\t' then
      if strict then .error (.tabsInIndent (lineNum + 1))
      else depthSpaces strict lineNum indentSize rest (spaces + indentSize)
    else .ok spaces

/-- `getDepth(line, lineNum, indentSize, strict)`: `floor(spaces /
indentSize)`, with the strict-mode multiple check. -/
def getDepth (line : String) (lineNum indentSize : Nat) (strict : Bool) :
    Except ToonErr Nat := do
  let spaces ← depthSpaces strict lineNum indentSize line.data 0
  let depth := spaces / indentSize
  if strict && spaces % indentSize != 0 then
    .error (.badIndent (lineNum + 1) indentSize)
  else .ok depth

/-- `indent(depth, indentSize)`. -/
def indent (depth indentSize : Nat) : String :=
  String.mk (List.replicate (depth * indentSize) ' ')

/-! ### `value-encoder.ts` -/

/-- `isPrimitive`. -/
def isPrimitive : Json → Bool
  | .null => true
  | .bool _ => true
  | .num _ => true
  | .str _ => true
  | _ => false

/-- JS `String(b)` on a boolean. -/
def boolToString (b : Bool) : String := if b then "true" else "false"

/-- Decimal string of a natural number. -/
def natToString (n : Nat) : String := String.mk (natDigits n)

/-- JS object property lookup on the insertion-ordered key-value list. -/
def lookupJs (k : String) : List (String × Json) → Option Json
  | [] => none
  | (l, v) :: rest => if l = k then some v else lookupJs k rest

/-- The key-value list of a plain object (`[]` otherwise). -/
def objKvs : Json → List (String × Json)
  | .obj kvs => kvs
  | _ => []

/-- JS truthiness of the optional `key` argument: `undefined` and the empty
string are falsy. -/
def keyTruthy : Option String → Option String
  | some k => if k = "" then none else some k
  | none => none

/-- `encodePrimitiveValue(value, delimiter)`.  The `isFinite` and negative
zero guards of the source are vacuous on the rational number model. -/
def encodePrimitiveValue (v : Json) (delimiter : Delim) : String :=
  match v with
  | .null => "null"
  | .bool b => boolToString b
  | .num q => canonicalNumber q
  | .str s => quoteString s delimiter
  | _ => "null"  -- the source's signature admits only primitives

/-- `arrayHeader(key, length, delimiter, fields)`. -/
def arrayHeader (key : Option String) (length : Nat) (delimiter : Delim)
    (fields : Option (List String)) : String :=
  let delimSymbol := if delimiter = .comma then "" else String.mk [delimiter.char]
  let bracket := "[" ++ natToString length ++ delimSymbol ++ "]"
  let fieldsStr := match fields with
    | some fs =>
      "\x7b" ++ String.intercalate (String.mk [delimiter.char])
        (fs.map (fun f => encodeKey f delimiter)) ++ "\x7d"
    | none => ""
  let keyStr := match keyTruthy key with
    | some k => encodeKey k delimiter
    | none => ""
  keyStr ++ bracket ++ fieldsStr ++ ":"

/-- Plain-object test `typeof v === 'object' && v !== null &&
!Array.isArray(v)`. -/
def isPlainObj : Json → Bool
  | .obj _ => true
  | _ => false

/-- Lexicographic code-unit comparison of character lists (the order JS
string comparison uses). -/
def charsLe : List Char → List Char → Bool
  | [], _ => true
  | _ :: _, [] => false
  | c :: cs, d :: ds =>
    decide (c.toNat < d.toNat) ||
      (decide (c.toNat = d.toNat) && charsLe cs ds)

/-- The string order of JS `Array.prototype.sort`'s default comparator. -/
def strLe (a b : String) : Prop := charsLe a.data b.data = true

instance : DecidableRel strLe := fun a b =>
  inferInstanceAs (Decidable (charsLe a.data b.data = true))

theorem charsLe_total : ∀ (a b : List Char),
    charsLe a b = true ∨ charsLe b a = true
  | [], _ => .inl rfl
  | _ :: _, [] => .inr rfl
  | c :: cs, d :: ds => by
    rcases Nat.lt_trichotomy c.toNat d.toNat with h | h | h
    · left
      simp [charsLe, h]
    · rcases charsLe_total cs ds with ih | ih
      · left
        simp [charsLe, h, ih]
      · right
        simp [charsLe, h.symm, ih]
    · right
      simp [charsLe, h]

theorem charsLe_trans : ∀ (a b c : List Char),
    charsLe a b = true → charsLe b c = true → charsLe a c = true
  | [], _, _, _, _ => rfl
  | _ :: _, [], _, h, _ => by simp [charsLe] at h
  | _ :: _, _ :: _, [], _, h => by simp [charsLe] at h
  | a :: as, b :: bs, c :: cs, h1, h2 => by
    simp only [charsLe, Bool.or_eq_true, Bool.and_eq_true,
      decide_eq_true_eq] at h1 h2 ⊢
    rcases h1 with h1 | ⟨h1e, h1r⟩
    · rcases h2 with h2 | ⟨h2e, h2r⟩
      · exact .inl (h1.trans h2)
      · exact .inl (h2e ▸ h1)
    · rcases h2 with h2 | ⟨h2e, h2r⟩
      · exact .inl (h1e ▸ h2)
      · exact .inr ⟨h1e.trans h2e, charsLe_trans as bs cs h1r h2r⟩

theorem charsLe_antisymm : ∀ (a b : List Char),
    charsLe a b = true → charsLe b a = true → a = b
  | [], [], _, _ => rfl
  | [], _ :: _, _, h => by simp [charsLe] at h
  | _ :: _, [], h, _ => by simp [charsLe] at h
  | a :: as, b :: bs, h1, h2 => by
    simp only [charsLe, Bool.or_eq_true, Bool.and_eq_true,
      decide_eq_true_eq] at h1 h2
    rcases h1 with h1 | ⟨h1e, h1r⟩
    · rcases h2 with h2 | ⟨h2e, _⟩
      · omega
      · omega
    · rcases h2 with h2 | ⟨_, h2r⟩
      · omega
      · have hab : a = b := by
          have hc := congrArg Char.ofNat h1e
          rwa [Char.ofNat_toNat, Char.ofNat_toNat] at hc
        exact hab ▸ congrArg (List.cons a) (charsLe_antisymm as bs h1r h2r)

instance : IsTotal String strLe :=
  ⟨fun a b => charsLe_total a.data b.data⟩

instance : IsTrans String strLe :=
  ⟨fun a b c => charsLe_trans a.data b.data c.data⟩

instance : IsAntisymm String strLe :=
  ⟨fun a b h1 h2 => by
    have hd := charsLe_antisymm a.data b.data h1 h2
    cases a
    cases b
    exact congrArg String.mk hd⟩

/-- JS default `Array.prototype.sort` on strings compares UTF-16 code units
(the `strLe` order; code units and code points agree on the characters
occurring here). -/
def sortStrings (l : List String) : List String := l.insertionSort strLe

/-- `checkTabular(value)`: non-empty, all plain objects, identical sorted key
lists, all values primitive; returns the first object's keys in encounter
order. -/
def checkTabular (value : List Json) : Option (List String) :=
  if value.length = 0 then none
  else if !(value.all isPlainObj) then none
  else
    let firstKvs := objKvs (value.headD .null)
    let firstKeys := sortStrings (firstKvs.map Prod.fst)
    if value.all (fun v =>
        let kvs := objKvs v
        let keys := sortStrings (kvs.map Prod.fst)
        decide (keys.length = firstKeys.length) && decide (keys = firstKeys) &&
        (kvs.map Prod.snd).all isPrimitive)
    then some (firstKvs.map Prod.fst)
    else none

/-- `encodePrimitive(value, depth, indentSize, delimiter, key)` for booleans
and null. -/
def encodePrimitive (value : Json) (depth indentSize : Nat) (delimiter : Delim)
    (key : Option String) : List String :=
  let indentation := indent depth indentSize
  let strValue := match value with
    | .bool b => boolToString b
    | _ => "null"
  match keyTruthy key with
  | some k => [indentation ++ encodeKey k delimiter ++ ": " ++ strValue]
  | none => [indentation ++ strValue]

/-- `encodeNumber(value, depth, indentSize, delimiter, key)` (the
`isFinite`/negative-zero guards are vacuous on the rational model). -/
def encodeNumber (value : Rat) (depth indentSize : Nat) (delimiter : Delim)
    (key : Option String) : List String :=
  let strValue := canonicalNumber value
  let indentation := indent depth indentSize
  match keyTruthy key with
  | some k => [indentation ++ encodeKey k delimiter ++ ": " ++ strValue]
  | none => [indentation ++ strValue]

/-- `encodeString(value, depth, indentSize, delimiter, key)`. -/
def encodeString (value : String) (depth indentSize : Nat) (delimiter : Delim)
    (key : Option String) : List String :=
  let quoted := quoteString value delimiter
  let indentation := indent depth indentSize
  match keyTruthy key with
  | some k => [indentation ++ encodeKey k delimiter ++ ": " ++ quoted]
  | none => [indentation ++ quoted]

/-! ### `encoder.ts` (`ToonEncoder`) -/

/-- The encoder options read by the encode paths.  The source also accepts
`keyFolding`, `flattenDepth`, `maxLineLength`, `compact` and
`preserveKeyOrder`, but never reads them while encoding. -/
structure EncoderOptions where
  indentSize : Nat := 2
  delimiter : Delim := .comma
  lineEnding : String := "\n"
  sortKeys : Bool := false
  trailingNewline : Bool := false
deriving DecidableEq

/-- Key sort of `sortKeys` (`localeCompare` approximated by the code-unit
order; the claims below only use the default `sortKeys = false`). -/
def sortEntries (kvs : List (String × Json)) : List (String × Json) :=
  kvs.insertionSort (fun a b => strLe a.1 b.1)

/-! The encoder's mutual recursion is modelled with explicit fuel so that it
stays structurally recursive (and therefore computes by definitional
reduction); fuel exhaustion returns no lines, and the entry point supplies
more fuel than the recursion over the value can consume. -/

mutual

/-- `ToonEncoder.encodeValue`. -/
def encodeValue (fuel : Nat) (o : EncoderOptions) (value : Json) (depth : Nat)
    (key : Option String) : List String :=
  match fuel with
  | 0 => []
  | fuel + 1 =>
    match value with
    | .null => encodePrimitive .null depth o.indentSize o.delimiter key
    | .bool b => encodePrimitive (.bool b) depth o.indentSize o.delimiter key
    | .num q => encodeNumber q depth o.indentSize o.delimiter key
    | .str s => encodeString s depth o.indentSize o.delimiter key
    | .arr xs => encodeArray fuel o xs depth key
    | .obj kvs => encodeObject fuel o kvs depth key
termination_by structural fuel

/-- `ToonEncoder.encodeArray`: empty header / inline / tabular / list. -/
def encodeArray (fuel : Nat) (o : EncoderOptions) (value : List Json)
    (depth : Nat) (key : Option String) : List String :=
  match fuel with
  | 0 => []
  | fuel + 1 =>
    if value.length = 0 then
      [indent depth o.indentSize ++ arrayHeader key 0 o.delimiter none]
    else if value.all isPrimitive then
      let values := value.map (fun v => encodePrimitiveValue v o.delimiter)
      let header := arrayHeader key value.length o.delimiter none
      let valuesStr := String.intercalate (String.mk [o.delimiter.char]) values
      [indent depth o.indentSize ++ header ++ " " ++ valuesStr]
    else
      match checkTabular value with
      | some fields =>
        let header := arrayHeader key value.length o.delimiter (some fields)
        (indent depth o.indentSize ++ header) ::
          value.map (fun obj =>
            indent (depth + 1) o.indentSize ++
              String.intercalate (String.mk [o.delimiter.char])
                (fields.map (fun f =>
                  encodePrimitiveValue ((lookupJs f (objKvs obj)).getD .null)
                    o.delimiter)))
      | none => encodeListArray fuel o value depth key
termination_by structural fuel

/-- `ToonEncoder.encodeListArray`. -/
def encodeListArray (fuel : Nat) (o : EncoderOptions) (value : List Json)
    (depth : Nat) (key : Option String) : List String :=
  match fuel with
  | 0 => []
  | fuel + 1 =>
    (indent depth o.indentSize ++
        arrayHeader key value.length o.delimiter none) ::
      encodeListItems fuel o value depth
termination_by structural fuel

/-- The item loop of `encodeListArray`. -/
def encodeListItems (fuel : Nat) (o : EncoderOptions) (items : List Json)
    (depth : Nat) : List String :=
  match fuel with
  | 0 => []
  | fuel + 1 =>
    match items with
    | [] => []
    | item :: rest =>
      (if isPrimitive item then
        [indent (depth + 1) o.indentSize ++ "- " ++
          encodePrimitiveValue item o.delimiter]
      else match item with
        | .arr xs =>
          match encodeValue fuel o (.arr xs) (depth + 1) none with
          | l0 :: ls =>
            (indent (depth + 1) o.indentSize ++ "- " ++ jsTrim l0) :: ls
          | [] => []
        | .obj kvs => encodeObjectAsListItem fuel o kvs (depth + 1)
        | _ => []) ++ encodeListItems fuel o rest depth
termination_by structural fuel

/-- `ToonEncoder.encodeObject`. -/
def encodeObject (fuel : Nat) (o : EncoderOptions)
    (kvs : List (String × Json)) (depth : Nat) (key : Option String) :
    List String :=
  match fuel with
  | 0 => []
  | fuel + 1 =>
    let entries := if o.sortKeys then sortEntries kvs else kvs
    match keyTruthy key with
    | some k =>
      if entries.length = 0 then
        [indent depth o.indentSize ++ encodeKey k o.delimiter ++ ":"]
      else
        (indent depth o.indentSize ++ encodeKey k o.delimiter ++ ":") ::
          encodeEntries fuel o entries (depth + 1)
    | none =>
      if entries.length = 0 then [] else encodeEntries fuel o entries depth
termination_by structural fuel

/-- The entry loop of `encodeObject` (one `encodeValue` per entry). -/
def encodeEntries (fuel : Nat) (o : EncoderOptions)
    (kvs : List (String × Json)) (depth : Nat) : List String :=
  match fuel with
  | 0 => []
  | fuel + 1 =>
    match kvs with
    | [] => []
    | (k, v) :: rest =>
      encodeValue fuel o v depth (some k) ++ encodeEntries fuel o rest depth
termination_by structural fuel

/-- `ToonEncoder.encodeObjectAsListItem`: only line `[0]` of the first
entry's encoding is kept on the `- ` line. -/
def encodeObjectAsListItem (fuel : Nat) (o : EncoderOptions)
    (kvs : List (String × Json)) (depth : Nat) : List String :=
  match fuel with
  | 0 => []
  | fuel + 1 =>
    match kvs with
    | [] => [indent depth o.indentSize ++ "-"]
    | (firstKey, firstValue) :: rest =>
      let firstLine :=
        (encodeValue fuel o firstValue depth (some firstKey)).headD ""
      (indent depth o.indentSize ++ "- " ++ jsTrim firstLine) ::
        encodeEntries fuel o rest (depth + 1)
termination_by structural fuel

end

/-- Fuel that exceeds the depth of any encoder recursion over `value`. -/
def encodeFuel (value : Json) : Nat := 2 * jsonSize value + 8

/-- `ToonEncoder.encode`: join the lines with the configured line ending,
optionally appending a trailing newline. -/
def encode (o : EncoderOptions) (value : Json) : String :=
  let lines := encodeValue (encodeFuel value) o value 0 none
  let output := String.intercalate o.lineEnding lines
  if o.trailingNewline && !(o.lineEnding.data.isSuffixOf output.data) then
    output ++ o.lineEnding
  else output

/-! ### `array-parser.ts` and `ToonParser`

The parser's `while` loops and mutual recursion are modelled with explicit
fuel (every loop step and every call consumes one unit); exhausted fuel
yields the artificial error `ToonErr.outOfFuel`, which the top-level entry
point avoids by supplying more fuel than any run can consume. -/

/-- A preprocessed line (`ParsedLine`). -/
structure PLine where
  content : String
  depth : Nat
  raw : String
deriving DecidableEq

/-- JS `obj[key] = v` on the insertion-ordered key-value list: replace in
place if present, append otherwise. -/
def jsSet (kvs : List (String × Json)) (k : String) (v : Json) :
    List (String × Json) :=
  match kvs with
  | [] => [(k, v)]
  | (l, w) :: rest => if l = k then (k, v) :: rest else (l, w) :: jsSet rest k v

/-- JS `s.slice(i)` on a string. -/
def sliceFrom (s : String) (i : Nat) : String := String.mk (s.data.drop i)

/-- JS `s.slice(0, i)`. -/
def sliceTo (s : String) (i : Nat) : String := String.mk (s.data.take i)

/-- JS `s.indexOf(c)` as an option. -/
def indexOfChar (s : String) (c : Char) : Option Nat := s.data.findIdx? (· = c)

/-- `content.startsWith('- ')`. -/
def startsWithDash (s : String) : Bool :=
  match s.data with
  | '-' :: ' ' :: _ => true
  | _ => false

mutual

/-- `parseObject(lines, startIdx, currentDepth, strict)`. -/
def parseObject (fuel : Nat) (lines : List PLine) (startIdx currentDepth : Nat)
    (strict : Bool) (obj : List (String × Json)) :
    Except ToonErr (List (String × Json) × Nat) :=
  match fuel with
  | 0 => .error .outOfFuel
  | fuel + 1 =>
    match lines[startIdx]? with
    | none => .ok (obj, startIdx)
    | some line =>
      if line.depth < currentDepth then .ok (obj, startIdx)
      else if line.depth > currentDepth then
        parseObject fuel lines (startIdx + 1) currentDepth strict obj
      else
        match findUnquotedColon line.content with
        | none =>
          if strict then .error (.missingColon (startIdx + 1))
          else parseObject fuel lines (startIdx + 1) currentDepth strict obj
        | some colonIdx =>
          let keyPart := jsTrim (sliceTo line.content colonIdx)
          let valuePart := jsTrim (sliceFrom line.content (colonIdx + 1))
          if keyPart.data.contains '[' && keyPart.data.contains ']' then do
            let header ← parseArrayHeader keyPart
            let result ← parseArrayContent fuel lines startIdx currentDepth
              header valuePart strict
            parseObject fuel lines result.2 currentDepth strict
              (jsSet obj (header.key.getD "") (.arr result.1))
          else do
            let key ← parseKey keyPart
            if valuePart = "" then
              match lines[startIdx + 1]? with
              | some next =>
                if next.depth > currentDepth then do
                  let result ← parseObject fuel lines (startIdx + 1)
                    (currentDepth + 1) strict []
                  parseObject fuel lines result.2 currentDepth strict
                    (jsSet obj key (.obj result.1))
                else
                  parseObject fuel lines (startIdx + 1) currentDepth strict
                    (jsSet obj key (.obj []))
              | none =>
                parseObject fuel lines (startIdx + 1) currentDepth strict
                  (jsSet obj key (.obj []))
            else do
              let v ← parsePrimitive valuePart
              parseObject fuel lines (startIdx + 1) currentDepth strict
                (jsSet obj key v)
termination_by structural fuel

/-- `parseArrayContent(lines, startIdx, currentDepth, header, valuePart,
strict)`: inline / tabular / list dispatch. -/
def parseArrayContent (fuel : Nat) (lines : List PLine)
    (startIdx currentDepth : Nat) (header : ArrayHeader) (valuePart : String)
    (strict : Bool) : Except ToonErr (List Json × Nat) :=
  match fuel with
  | 0 => .error .outOfFuel
  | fuel + 1 =>
    if valuePart ≠ "" then do
      let values := splitDelimited valuePart header.delimiter
      let result ← values.mapM (fun v => parsePrimitive (jsTrim v))
      if strict && (result.length : Int) != header.length then
        .error (.inlineLengthMismatch header.length result.length)
      else
        .ok (result, startIdx + 1)
    else
      match header.fields with
      | some fields =>
        if fields.length > 0 then
          parseTabularArray fuel lines startIdx currentDepth header fields strict
        else parseListArray fuel lines startIdx currentDepth header strict
      | none => parseListArray fuel lines startIdx currentDepth header strict
termination_by structural fuel

/-- `parseTabularArray`: collect the rows, then the strict row-count check. -/
def parseTabularArray (fuel : Nat) (lines : List PLine)
    (startIdx currentDepth : Nat) (header : ArrayHeader)
    (fields : List String) (strict : Bool) : Except ToonErr (List Json × Nat) :=
  match fuel with
  | 0 => .error .outOfFuel
  | fuel + 1 => do
    let (rows, idx) ← tabularLoop fuel lines (startIdx + 1) currentDepth
      header fields strict []
    if strict && (rows.length : Int) != header.length then
      .error (.tabularLengthMismatch header.length rows.length)
    else
      .ok (rows, idx)

/-- The row loop of `parseTabularArray`. -/
def tabularLoop (fuel : Nat) (lines : List PLine) (idx currentDepth : Nat)
    (header : ArrayHeader) (fields : List String) (strict : Bool)
    (rows : List Json) : Except ToonErr (List Json × Nat) :=
  match fuel with
  | 0 => .error .outOfFuel
  | fuel + 1 =>
    match lines[idx]? with
    | none => .ok (rows, idx)
    | some line =>
      if line.depth < currentDepth + 1 then .ok (rows, idx)
      else if line.depth = currentDepth + 1 then do
        let values := splitDelimited line.content header.delimiter
        if strict && values.length != fields.length then
          .error (.tabularWidthMismatch fields.length values.length)
        else do
          -- obj[fields[i]] = parsePrimitive(values[i]?.trim() || '')
          let row ← (List.range fields.length).mapM (fun i =>
            parsePrimitive (match values[i]? with
              | some s => jsTrim s
              | none => ""))
          let obj := (fields.zip row).foldl (fun acc p => jsSet acc p.1 p.2) []
          tabularLoop fuel lines (idx + 1) currentDepth header fields strict
            (rows ++ [Json.obj obj])
      else
        tabularLoop fuel lines (idx + 1) currentDepth header fields strict rows
termination_by structural fuel

/-- `parseListArray`: collect the `- ` items, then the strict count check. -/
def parseListArray (fuel : Nat) (lines : List PLine)
    (startIdx currentDepth : Nat) (header : ArrayHeader) (strict : Bool) :
    Except ToonErr (List Json × Nat) :=
  match fuel with
  | 0 => .error .outOfFuel
  | fuel + 1 => do
    let (result, idx) ← listLoop fuel lines (startIdx + 1) currentDepth
      header strict []
    if strict && (result.length : Int) != header.length then
      .error (.listLengthMismatch header.length result.length)
    else
      .ok (result, idx)
termination_by structural fuel

/-- The item loop of `parseListArray`. -/
def listLoop (fuel : Nat) (lines : List PLine) (idx currentDepth : Nat)
    (header : ArrayHeader) (strict : Bool) (result : List Json) :
    Except ToonErr (List Json × Nat) :=
  match fuel with
  | 0 => .error .outOfFuel
  | fuel + 1 =>
    match lines[idx]? with
    | none => .ok (result, idx)
    | some line =>
      if line.depth < currentDepth + 1 then .ok (result, idx)
      else if line.depth = currentDepth + 1 && startsWithDash line.content then
        let itemContent := sliceFrom line.content 2
        if itemContent.data.contains '[' && itemContent.data.contains ']' then do
          let itemHeader ← parseArrayHeader itemContent
          let valuePart := match indexOfChar itemContent ':' with
            | some colonIdx => jsTrim (sliceFrom itemContent (colonIdx + 1))
            | none => ""
          let values := splitDelimited valuePart itemHeader.delimiter
          let item ← values.mapM (fun v => parsePrimitive (jsTrim v))
          listLoop fuel lines (idx + 1) currentDepth header strict
            (result ++ [Json.arr item])
        else
          match findUnquotedColon itemContent with
          | some colonIdx => do
            let keyPart := jsTrim (sliceTo itemContent colonIdx)
            let valuePart := jsTrim (sliceFrom itemContent (colonIdx + 1))
            let key ← parseKey keyPart
            let (obj, idx') ←
              if valuePart = "" then
                match lines[idx + 1]? with
                | some next =>
                  if next.depth > currentDepth + 1 then do
                    let objResult ← parseObject fuel lines (idx + 1)
                      (currentDepth + 2) strict []
                    pure ([(key, Json.obj objResult.1)], objResult.2)
                  else pure ([(key, Json.obj [])], idx + 1)
                | none => pure ([(key, Json.obj [])], idx + 1)
              else do
                let v ← parsePrimitive valuePart
                pure ([(key, v)], idx + 1)
            let (obj, idx'') ← extraFieldsLoop fuel lines idx' currentDepth
              strict obj
            listLoop fuel lines idx'' currentDepth header strict
              (result ++ [Json.obj obj])
          | none => do
            let v ← parsePrimitive itemContent
            listLoop fuel lines (idx + 1) currentDepth header strict
              (result ++ [v])
      else
        listLoop fuel lines (idx + 1) currentDepth header strict result
termination_by structural fuel

/-- The additional-fields loop of the object-as-list-item case (lines at
`currentDepth + 2`, primitive values only). -/
def extraFieldsLoop (fuel : Nat) (lines : List PLine) (idx currentDepth : Nat)
    (strict : Bool) (obj : List (String × Json)) :
    Except ToonErr (List (String × Json) × Nat) :=
  match fuel with
  | 0 => .error .outOfFuel
  | fuel + 1 =>
    match lines[idx]? with
    | none => .ok (obj, idx)
    | some line =>
      if line.depth = currentDepth + 2 then
        match findUnquotedColon line.content with
        | some colonIdx => do
          let fKey ← parseKey (jsTrim (sliceTo line.content colonIdx))
          let fValue ← parsePrimitive
            (jsTrim (sliceFrom line.content (colonIdx + 1)))
          extraFieldsLoop fuel lines (idx + 1) currentDepth strict
            (jsSet obj fKey fValue)
        | none =>
          extraFieldsLoop fuel lines (idx + 1) currentDepth strict obj
      else .ok (obj, idx)
termination_by structural fuel

end

/-! ### `path-expander.ts` -/

/-- Join path segments with dots. -/
def pathJoin (segs : List String) : String := String.intercalate "." segs

/-! The path expander walks real JavaScript objects: `current =
current[segment]` can land on an *array*, whose object view has an
always-present own property `length` and keeps any properties earlier
walks assigned to it, and whose `length` property rejects an invalid
assignment with a `RangeError` and visibly resizes the array otherwise.
The JSON value type cannot carry such expando properties, so the expander
is modelled over `XJson`, which extends arrays with their property list;
`fromXJson` is the JSON view of the resulting object graph (expando
properties on arrays are invisible to it, exactly as they are invisible
to the JSON data model of the parsed value).

Modelling boundary (not exercised by any theorem below): property lookups
model *own* properties.  JavaScript's `in` also sees prototype-inherited
members (`push`, `toString`, ...), so a dotted key whose segment names
such a member behaves differently in the source; the universal theorems
below only ever *hypothesise* a positive own-property lookup (which
implies `in` in JavaScript), and the concrete examples use segment names
that are not prototype members. -/

/-- JSON values as the expander's walk sees them: like `Json`, but an
array carries the expando properties assigned to the underlying array
object. -/
inductive XJson where
  | null
  | bool (b : Bool)
  | num (q : Rat)
  | str (s : String)
  | arr (elems : List XJson) (props : List (String × XJson))
  | obj (kvs : List (String × XJson))

mutual

/-- Lift a JSON value into the walk's representation (no expandos). -/
def toXJson : Json → XJson
  | .null => .null
  | .bool b => .bool b
  | .num q => .num q
  | .str s => .str s
  | .arr xs => .arr (toXList xs) []
  | .obj kvs => .obj (toXKvs kvs)

/-- `toXJson` on a list of values. -/
def toXList : List Json → List XJson
  | [] => []
  | x :: xs => toXJson x :: toXList xs

/-- `toXJson` on a key-value list. -/
def toXKvs : List (String × Json) → List (String × XJson)
  | [] => []
  | (k, v) :: xs => (k, toXJson v) :: toXKvs xs

end

mutual

/-- The JSON view of the walk's result: expando properties on arrays are
dropped, exactly as the JSON data model cannot see them. -/
def fromXJson : XJson → Json
  | .null => .null
  | .bool b => .bool b
  | .num q => .num q
  | .str s => .str s
  | .arr elems _ => .arr (fromXList elems)
  | .obj kvs => .obj (fromXKvs kvs)

/-- `fromXJson` on a list of values. -/
def fromXList : List XJson → List Json
  | [] => []
  | x :: xs => fromXJson x :: fromXList xs

/-- `fromXJson` on a key-value list. -/
def fromXKvs : List (String × XJson) → List (String × Json)
  | [] => []
  | (k, v) :: xs => (k, fromXJson v) :: fromXKvs xs

end

/-- Own-property lookup on a key-value list. -/
def lookupX (k : String) : List (String × XJson) → Option XJson
  | [] => none
  | (l, v) :: rest => if l = k then some v else lookupX k rest

/-- JS `obj[key] = v` on a key-value list: replace in place if present,
append otherwise. -/
def jsSetX (kvs : List (String × XJson)) (k : String) (v : XJson) :
    List (String × XJson) :=
  match kvs with
  | [] => [(k, v)]
  | (l, w) :: rest =>
    if l = k then (k, v) :: rest else (l, w) :: jsSetX rest k v

/-- Own-property read (`segment in current` / `current[segment]`) on the
containers the walk descends into: a plain object's entries, or an
array's ever-present `length` (a number) and its expando properties.
Numeric index properties are unreachable here because every segment
matches `IDENTIFIER_REGEX`, which no digit-initial string does. -/
def xGet (c : XJson) (k : String) : Option XJson :=
  match c with
  | .obj kvs => lookupX k kvs
  | .arr elems props =>
    if k = "length" then some (.num (elems.length : Nat)) else lookupX k props
  | _ => none

/-- Is the rational a valid JS array length (`ToUint32(n) === n`): a
non-negative integer below `2^32`? -/
def ratArrayLength (q : Rat) : Option Nat :=
  if q.den = 1 ∧ 0 ≤ q.num ∧ q.num < 4294967296 then some q.num.toNat
  else none

/-- JS `ToNumber` of the value assigned to an array's `length`, checked as
an array length.  The number, boolean, `null`, empty-string and
empty-array cases are exact; the string case covers the decimal-literal
grammar the codec itself emits and accepts.  Not modelled (they yield
`RangeError` here but a coercion in JS): hex/octal/binary and `Infinity`
string forms, leading `+` or bare-dot decimals, and the `join`-based
coercion of non-empty arrays.  Either way no conflict error can arise
from a length assignment, which is all the theorems below rely on. -/
def jsToArrayLength : XJson → Option Nat
  | .num q => ratArrayLength q
  | .bool b => some (if b then 1 else 0)
  | .null => some 0
  | .str s =>
    let t := jsTrimL s.data
    if t.isEmpty then some 0
    else match parseNumberShape t with
      | some parts => ratArrayLength (numPartsValue parts)
      | none => none
  | .arr elems _ => if elems.isEmpty then some 0 else none
  | .obj _ => none

/-- Resize an array to the assigned length: truncate, or extend with holes
(a hole reads back as `null` in the JSON view). -/
def resizeTo (elems : List XJson) (n : Nat) : List XJson :=
  elems.take n ++ List.replicate (n - elems.length) XJson.null

/-- Own-property write (`current[key] = v`): plain assignment on an
object; on an array, assigning `length` either resizes the array (valid
length) or throws a `RangeError`, and any other key lands as an expando
property. -/
def xSet (c : XJson) (k : String) (v : XJson) : Except ToonErr XJson :=
  match c with
  | .obj kvs => .ok (.obj (jsSetX kvs k v))
  | .arr elems props =>
    if k = "length" then
      match jsToArrayLength v with
      | some n => .ok (.arr (resizeTo elems n) props)
      | none => .error .rangeError
    else .ok (.arr elems (jsSetX props k v))
  | w => .ok w

/-- The walk's intermediate test `typeof current[segment] === 'object' &&
current[segment] !== null`: objects and arrays pass, primitives and
`null` do not. -/
def isContainerX : XJson → Bool
  | .obj _ => true
  | .arr _ _ => true
  | _ => false

/-! The path expander's mutual recursion is modelled with explicit fuel
like the parser's; fuel exhaustion yields `ToonErr.outOfFuel` and the
entry point supplies more fuel than any walk can consume. -/

mutual

/-- `expandPaths(value, strict)`. -/
def expandPaths (fuel : Nat) (v : XJson) (strict : Bool) :
    Except ToonErr XJson :=
  match fuel with
  | 0 => .error .outOfFuel
  | fuel + 1 =>
    match v with
    | .obj kvs => expandEntries fuel kvs strict (.obj [])
    | .arr elems _ =>
      (fun es => XJson.arr es []) <$> expandList fuel elems strict
    | w => .ok w
termination_by structural fuel

/-- The array map of `expandPaths` (`value.map(...)` returns a fresh
array, so expando properties of the input are not carried over). -/
def expandList (fuel : Nat) (xs : List XJson) (strict : Bool) :
    Except ToonErr (List XJson) :=
  match fuel with
  | 0 => .error .outOfFuel
  | fuel + 1 =>
    match xs with
    | [] => .ok []
    | x :: rest => do
      let x' ← expandPaths fuel x strict
      let rest' ← expandList fuel rest strict
      .ok (x' :: rest')
termination_by structural fuel

/-- The entry loop of `expandPaths` on an object, building `result`
(always a plain object; it is typed as a container so the walk can thread
it, and `xSet` on it never fails). -/
def expandEntries (fuel : Nat) (kvs : List (String × XJson)) (strict : Bool)
    (result : XJson) : Except ToonErr XJson :=
  match fuel with
  | 0 => .error .outOfFuel
  | fuel + 1 =>
    match kvs with
    | [] => .ok result
    | (key, val) :: rest =>
      if key.data.contains '.' && isIdentifierSegments key then do
        let segs := (splitListOn '.' key.data).map String.mk
        let result' ← expandInsert fuel result segs [] val strict
        expandEntries fuel rest strict result'
      else do
        let v' ← expandPaths fuel val strict
        let result' ← xSet result key v'
        expandEntries fuel rest strict result'
termination_by structural fuel

/-- The segment walk of `expandPaths` for one dotted key over the current
container `cur`.  A missing intermediate is created as `{}` — assigned
first, as in the source, so a `RangeError` of that assignment surfaces
before the deeper walk.  An intermediate holding an object or an array is
descended into: the array case passes the source's `typeof === 'object'`
test, and writes land on the array's own properties and persist there for
later keys.  An intermediate holding a primitive or `null` is a strict
conflict error, and is overwritten with `{}` when non-strict.  At the
final segment the value is expanded first, then the strict duplicate
check reads the own properties (for an array, including its `length`),
then the assignment runs — which can itself raise the `RangeError` of an
invalid array-length write, or visibly resize the array on a valid
one. -/
def expandInsert (fuel : Nat) (cur : XJson) (segs seen : List String)
    (val : XJson) (strict : Bool) : Except ToonErr XJson :=
  match fuel with
  | 0 => .error .outOfFuel
  | fuel + 1 =>
    match segs with
    | [] => .ok cur
    | [last] => do
      let v' ← expandPaths fuel val strict
      if strict && (xGet cur last).isSome then
        .error (.expansionDuplicate (pathJoin (seen ++ [last])))
      else xSet cur last v'
    | s :: rest =>
      match xGet cur s with
      | none => do
        let cur' ← xSet cur s (.obj [])
        let sub ← expandInsert fuel (.obj []) rest (seen ++ [s]) val strict
        xSet cur' s sub
      | some c =>
        if isContainerX c then do
          let sub ← expandInsert fuel c rest (seen ++ [s]) val strict
          xSet cur s sub
        else if strict then
          .error (.expansionConflict (pathJoin (seen ++ [s])))
        else do
          let cur' ← xSet cur s (.obj [])
          let sub ← expandInsert fuel (.obj []) rest (seen ++ [s]) val strict
          xSet cur' s sub
termination_by structural fuel

end

/-- Fuel that exceeds the depth of any expansion walk over `v`. -/
def expandFuel (v : Json) : Nat := 4 * jsonSize v + 16

/-- The path-expansion entry as `ToonParser.parse` invokes it, taken in
the JSON view. -/
def expandPathsTop (v : Json) (strict : Bool) : Except ToonErr Json :=
  fromXJson <$> expandPaths (expandFuel v) (toXJson v) strict

/-! ### `ToonParser` -/

/-- `expandPaths: 'off' | 'safe'`. -/
inductive ExpandMode where
  | off
  | safe
deriving DecidableEq

/-- The parser options (defaults of the `ToonParser` constructor). -/
structure ParserOptions where
  indentSize : Nat := 2
  strict : Bool := true
  expandPaths : ExpandMode := .off
deriving DecidableEq

/-- JS `content.split('\n')`. -/
def splitNl (s : String) : List String := (splitListOn '\n' s.data).map String.mk

/-- The preprocessing loop of `ToonParser.parseLines`: skip blank lines,
compute the depth, strip `depth * indentSize` characters. -/
def preprocessLines (o : ParserOptions) : List String → Nat →
    Except ToonErr (List PLine)
  | [], _ => .ok []
  | line :: rest, i =>
    if jsTrim line = "" then preprocessLines o rest (i + 1)
    else do
      let depth ← getDepth line i o.indentSize o.strict
      let content := sliceFrom line (depth * o.indentSize)
      let tail ← preprocessLines o rest (i + 1)
      .ok (⟨content, depth, line⟩ :: tail)

/-- Fuel that exceeds what any run over `lines` can consume. -/
def parseFuel (lines : List PLine) : Nat :=
  (lines.length + 2) * (lines.length + 2)

/-- `ToonParser.determineRootForm` (with the embedded
`ToonParser.parseArray`, which takes the value part after a plain
`indexOf(':')`). -/
def determineRootForm (o : ParserOptions) (lines : List PLine) :
    Except ToonErr Json :=
  match lines with
  | [] => .ok (.obj [])
  | firstLine :: _ =>
    if firstLine.depth = 0 && isArrayHeader firstLine.content then do
      let header ← parseArrayHeader firstLine.content
      match keyTruthy header.key with
      | some _ =>
        (fun r => Json.obj r.1) <$>
          parseObject (parseFuel lines) lines 0 0 o.strict []
      | none => do
        let valuePart := match indexOfChar firstLine.content ':' with
          | some i => jsTrim (sliceFrom firstLine.content (i + 1))
          | none => ""
        (fun r => Json.arr r.1) <$>
          parseArrayContent (parseFuel lines) lines 0 0 header valuePart
            o.strict
    else if lines.length = 1 && firstLine.depth = 0 &&
        (findUnquotedColon firstLine.content).isNone &&
        !isArrayHeader firstLine.content then
      parsePrimitive firstLine.content
    else
      (fun r => Json.obj r.1) <$>
        parseObject (parseFuel lines) lines 0 0 o.strict []

/-- `ToonParser.parse(content)`: empty documents give the empty object;
otherwise preprocess, parse the root form, and optionally expand paths. -/
def parseDoc (o : ParserOptions) (content : String) : Except ToonErr Json := do
  if jsTrim content = "" then return .obj []
  let lines ← preprocessLines o (splitNl content) 0
  let parsed ←
    if lines.isEmpty then pure (Json.obj [])
    else determineRootForm o lines
  match o.expandPaths with
  | .safe => expandPathsTop parsed o.strict
  | .off => pure parsed

/-! ## Claim C1: the round-trip contract -/

/-- An array holding one object whose first entry's value is itself a
non-empty object. -/
def roundTripFailingInput : Json := .arr [.obj [("a", .obj [("b", .bool true)])]]

/-- Claim C1 (code bug): the round-trip contract `parse(encode(v)) == v`
fails at `[ \x7b a: \x7b b: true \x7d \x7d ]`, a value built only from plain
objects, arrays and booleans: `encodeObjectAsListItem` keeps only the first
output line of its first entry, so the nested `b: true` line is dropped and
the value parses back as `[ \x7b a: \x7b\x7d \x7d ]`. -/
theorem c1_roundtrip_fails_on_nested_list_object :
    encode {} roundTripFailingInput = "[1]:\n  - a:" ∧
    parseDoc {} (encode {} roundTripFailingInput)
      = .ok (.arr [.obj [("a", .obj [])]]) ∧
    Json.arr [.obj [("a", .obj [])]] ≠ roundTripFailingInput :=
  ⟨by decide, by decide, by decide⟩

/-! ## Claim C10: `splitDelimited` rejoins to the input -/

/-- Join character lists with a delimiter character (the inverse operation
of splitting). -/
def joinWithChar (d : Char) : List (List Char) → List Char
  | [] => []
  | [x] => x
  | x :: xs => x ++ d :: joinWithChar d xs

/-- Join strings with a delimiter (`parts.join(delimiter)`). -/
def joinDelim (d : Delim) (parts : List String) : String :=
  String.mk (joinWithChar d.char (parts.map String.data))

theorem joinWithChar_cons (d : Char) (x : List Char) (y : List (List Char))
    (hy : y ≠ []) : joinWithChar d (x :: y) = x ++ d :: joinWithChar d y := by
  match y with
  | [] => exact absurd rfl hy
  | z :: zs => rfl

theorem splitCore_ne_nil (d : Char) :
    ∀ (cs : List Char) (inQ : Bool) (cur : List Char),
      splitCore d cs inQ cur ≠ []
  | [], _, cur => List.cons_ne_nil cur []
  | [c], inQ, cur => by
    simp only [splitCore]
    split
    · split <;> simp
    · split
      · exact splitCore_ne_nil d [] (!inQ) (cur ++ ['"'])
      · split
        · simp
        · exact splitCore_ne_nil d [] inQ (cur ++ [c])
  | c :: c2 :: rest2, inQ, cur => by
    simp only [splitCore]
    split
    · exact splitCore_ne_nil d rest2 inQ (cur ++ ['\\', c2])
    · split
      · exact splitCore_ne_nil d (c2 :: rest2) (!inQ) (cur ++ ['"'])
      · split
        · simp
        · exact splitCore_ne_nil d (c2 :: rest2) inQ (cur ++ [c])

theorem splitCore_join (d : Char) :
    ∀ (cs : List Char) (inQ : Bool) (cur : List Char),
      joinWithChar d (splitCore d cs inQ cur) = cur ++ cs
  | [], _, cur => (List.append_nil cur).symm
  | [c], inQ, cur => by
    simp only [splitCore]
    split
    · rename_i hc
      split
      · rename_i hd
        have hdc : d = '\\' := by
          simp only [Bool.and_eq_true, decide_eq_true_eq] at hd
          exact hd.2.symm
        simp [joinWithChar, hc, hdc]
      · simp [joinWithChar, hc]
    · split
      · rename_i hc hq
        simp [joinWithChar, hq]
      · split
        · rename_i hc hq hd
          have hcd : c = d := by
            simp only [Bool.and_eq_true, decide_eq_true_eq] at hd
            exact hd.2
          simp [joinWithChar, hcd]
        · simp [joinWithChar]
  | c :: c2 :: rest2, inQ, cur => by
    simp only [splitCore]
    split
    · rename_i hc
      rw [splitCore_join d rest2 inQ (cur ++ ['\\', c2])]
      simp [hc]
    · split
      · rename_i hc hq
        rw [splitCore_join d (c2 :: rest2) (!inQ) (cur ++ ['"'])]
        simp [hq]
      · split
        · rename_i hc hq hd
          have hcd : c = d := by
            simp only [Bool.and_eq_true, decide_eq_true_eq] at hd
            exact hd.2
          rw [joinWithChar_cons d cur _ (splitCore_ne_nil d (c2 :: rest2) inQ []),
            splitCore_join d (c2 :: rest2) inQ []]
          simp [hcd]
        · rw [splitCore_join d (c2 :: rest2) inQ (cur ++ [c])]
          simp

/-- Claim C10: for every string and delimiter, `splitDelimited` returns a
non-empty segment list which, rejoined with the delimiter, equals the input
exactly (quotes and escape pairs are copied verbatim; only unquoted
delimiter occurrences are removed, as the rejoin identity witnesses). -/
theorem c10_splitDelimited_rejoins (s : String) (d : Delim) :
    splitDelimited s d ≠ [] ∧ joinDelim d (splitDelimited s d) = s := by
  constructor
  · intro h
    exact splitCore_ne_nil d.char s.data false []
      (by simpa [splitDelimited] using congrArg (List.map String.data) h)
  · show String.mk (joinWithChar d.char
      (((splitCore d.char s.data false []).map String.mk).map String.data)) = s
    rw [List.map_map]
    have hmk : (String.data ∘ String.mk) = id := by
      funext l
      rfl
    rw [hmk, List.map_id, splitCore_join d.char s.data false []]
    show String.mk s.data = s
    cases s
    rfl

/-! ## Claim C5: escape sequences -/

/-- The character an escape sequence decodes to, for the five recognized
escapes. -/
def escTarget (c : Char) : Char :=
  if c = 'n' then '\n' else if c = 'r' then '\r' else if c = 't' then '\t'
  else c

/-- Claim C5, counterexample: parsing the quoted value `"a\x"` with the
parser's strict option OFF still raises the escape error, because
`parsePrimitive` always calls `unescapeString` with its strict default; the
claim says non-strict parsing passes the backslash and following character
through without error. -/
theorem c5_cex_nonstrict_parse_still_raises :
    parseDoc { strict := false } "k: \"a\\x\"" = .error (.invalidEscape 'x') := by
  decide

/-- Claim C5 as amended: exactly five escape sequences (backslash, quote,
`n`, `r`, `t`) are recognized by the unescape utility; any other character
after a backslash is an error when the utility runs strict and is passed
through verbatim when it does not — but the parser always runs the utility
strict (the parser's own strict option is not threaded through
`parsePrimitive`), so a quoted value with an invalid escape raises the
escape error under either parser mode. -/
theorem c5_amended_escape_behavior :
    (∀ c : Char,
      unescapeCore true ['\\', c] =
        (if c ∈ ['\\', '"', 'n', 'r', 't'] then .ok [escTarget c]
         else .error (.invalidEscape c)) ∧
      unescapeCore false ['\\', c] =
        (if c ∈ ['\\', '"', 'n', 'r', 't'] then .ok [escTarget c]
         else .ok ['\\', c])) ∧
    (∀ strictMode : Bool,
      parseDoc { strict := strictMode } "k: \"a\\x\"" =
        .error (.invalidEscape 'x')) := by
  constructor
  · intro c
    by_cases h1 : c = '\\'
    · subst h1
      exact ⟨by decide, by decide⟩
    by_cases h2 : c = '"'
    · subst h2
      exact ⟨by decide, by decide⟩
    by_cases h3 : c = 'n'
    · subst h3
      exact ⟨by decide, by decide⟩
    by_cases h4 : c = 'r'
    · subst h4
      exact ⟨by decide, by decide⟩
    by_cases h5 : c = 't'
    · subst h5
      exact ⟨by decide, by decide⟩
    have hm : c ∉ ['\\', '"', 'n', 'r', 't'] := by
      simp [h1, h2, h3, h4, h5]
    constructor
    · simp [unescapeCore, h1, h2, h3, h4, h5, hm]
    · simp [unescapeCore, h1, h2, h3, h4, h5, hm]
  · intro strictMode
    cases strictMode
    · decide
    · decide

/-! ## Claim C4: primitive classification -/

/-- Primitive classification in the order the claim states it: quoted span
(strip quotes and unescape) → exact literal `true`, `false`, `null` →
leading-zero numeric string kept as a string → number pattern parsed as a
finite double → trimmed verbatim string otherwise. -/
def specClassify (value : String) : Except ToonErr Json :=
  let t := jsTrimL value.data
  if t ≠ [] ∧ t.headD ' ' = '"' ∧ t.getLastD ' ' = '"' then
    (fun cs => Json.str (String.mk cs)) <$> unescapeCore true (sliceInner t)
  else if t = "true".data then .ok (.bool true)
  else if t = "false".data then .ok (.bool false)
  else if t = "null".data then .ok .null
  else if leadingZerosMatch t then .ok (.str (String.mk t))
  else
    match parseNumberShape t with
    | some parts =>
      if isFiniteDouble (numPartsValue parts) then
        .ok (.num (numPartsValue parts))
      else .ok (.str (String.mk t))
    | none => .ok (.str (String.mk t))

theorem quotedSpan_iff (cs : List Char) :
    quotedSpan cs = true ↔
      (cs ≠ [] ∧ cs.headD ' ' = '"' ∧ cs.getLastD ' ' = '"') := by
  cases cs with
  | nil => simp [quotedSpan]
  | cons c rest => simp [quotedSpan]

set_option maxRecDepth 8192 in
/-- Claim C4: the primitive classifier applies the claim's rules in order
with the first match winning (the source's length-switch fast path for the
reserved literals included), and the claim's examples hold: `1e5` parses to
the number 100000 and `007` stays a string. -/
theorem c4_classification_first_match :
    (∀ s : String, parsePrimitive s = specClassify s) ∧
    parsePrimitive "1e5" = .ok (.num 100000) ∧
    parsePrimitive "007" = .ok (.str "007") ∧
    parsePrimitive "true" = .ok (.bool true) ∧
    parsePrimitive "false" = .ok (.bool false) ∧
    parsePrimitive "null" = .ok .null := by
  refine ⟨?_, by decide, by decide, by decide, by decide, by decide⟩
  intro s
  simp only [parsePrimitive, specClassify]
  by_cases hq : quotedSpan (jsTrimL s.data)
  · rw [if_pos hq, if_pos ((quotedSpan_iff (jsTrimL s.data)).mp hq)]
  · rw [if_neg hq,
      if_neg (fun hp => hq ((quotedSpan_iff (jsTrimL s.data)).mpr hp))]
    by_cases htr : jsTrimL s.data = "true".data
    · simp [htr]
    · by_cases hfa : jsTrimL s.data = "false".data
      · simp [hfa]
      · by_cases hnu : jsTrimL s.data = "null".data
        · simp [hnu]
        · simp [htr, hfa, hnu]

/-! ## Claim C8: quoting of keys and string values -/

/-- A string in quoted output form: at least two characters, starting and
ending with a double quote. -/
def isQuotedOut (s : String) : Bool :=
  decide (2 ≤ s.data.length) && decide (s.data.headD 'x' = '"') &&
    decide (s.data.getLastD 'x' = '"')

/-- The quoting condition as the claim states it: empty, leading or trailing
whitespace, a reserved literal, number-shaped (either number pattern),
beginning with `-`, or containing one of the special characters or the
active delimiter. -/
def specNeedsQuoting (value : String) (delimiter : Delim) : Bool :=
  let cs := value.data
  cs.isEmpty || jsWs (cs.headD 'x') || jsWs (cs.getLastD 'x') ||
  value == "true" || value == "false" || value == "null" || value == "-" ||
  numberRegexMatch cs || leadingZerosMatch cs ||
  decide (cs.headD ' ' = '-') ||
  cs.any (fun c => c = ':' || c = '"' || c = '\\' || c = '[' || c = ']' ||
    c = '\x7b' || c = '\x7d' || c = '\n' || c = '\r' || c = '\t' ||
    c = delimiter.char)

theorem if_true_or (a x : Bool) : (if a then true else x) = (a || x) := by
  cases a <;> simp

theorem specialScan_eq_any (dch : Char) :
    ∀ cs : List Char,
      specialScan dch cs =
        cs.any (fun c => c = ':' || c = '"' || c = '\\' || c = '[' ||
          c = ']' || c = '\x7b' || c = '\x7d' || c = '\n' || c = '\r' ||
          c = '\t' || c = dch)
  | [] => rfl
  | c :: rest => by
    simp only [specialScan, List.any_cons]
    split
    · rename_i h
      rw [h]
      simp
    · rename_i h
      simp only [Bool.not_eq_true] at h
      rw [h, specialScan_eq_any dch rest]
      simp

theorem dropWhile_eq_self_head (p : Char → Bool) (l : List Char)
    (hl : l ≠ []) (h : l.dropWhile p = l) : p (l.headD 'x') = false := by
  cases l with
  | nil => exact absurd rfl hl
  | cons c rest =>
    by_cases hc : p c
    · rw [List.dropWhile_cons, if_pos hc] at h
      have hlen := congrArg List.length h
      have hle : (List.dropWhile p rest).length ≤ rest.length :=
        (List.dropWhile_sublist p).length_le
      simp only [List.length_cons] at hlen
      omega
    · simpa using hc

theorem dropWhile_eq_self_of_head (p : Char → Bool) (c : Char)
    (rest : List Char) (h : p c = false) :
    (c :: rest).dropWhile p = c :: rest := by
  rw [List.dropWhile_cons, if_neg (by simp [h])]

theorem getLastD_append_singleton' (l : List Char) (a : Char) :
    ∀ d, (l ++ [a]).getLastD d = a := by
  induction l with
  | nil => intro d; rfl
  | cons c rest ih =>
    intro d
    rw [List.cons_append, List.getLastD_cons]
    exact ih c

theorem headD_reverse (l : List Char) (d : Char) :
    l.reverse.headD d = l.getLastD d := by
  rw [List.headD_eq_head?, List.getLastD_eq_getLast?, List.head?_reverse]

theorem jsTrimL_eq_self_iff (l : List Char) (hl : l ≠ []) :
    jsTrimL l = l ↔
      (jsWs (l.headD 'x') = false ∧ jsWs (l.getLastD 'x') = false) := by
  constructor
  · intro h
    have h' : ((l.dropWhile jsWs).reverse.dropWhile jsWs).reverse = l := h
    have hlen : ((l.dropWhile jsWs).reverse.dropWhile jsWs).reverse.length
        = l.length := congrArg List.length h'
    rw [List.length_reverse] at hlen
    have len1 : (l.dropWhile jsWs).length ≤ l.length :=
      (List.dropWhile_sublist jsWs).length_le
    have len2 : ((l.dropWhile jsWs).reverse.dropWhile jsWs).length
        ≤ (l.dropWhile jsWs).reverse.length :=
      (List.dropWhile_sublist jsWs).length_le
    rw [List.length_reverse] at len2
    have hLeq : l.dropWhile jsWs = l :=
      (List.dropWhile_sublist jsWs).eq_of_length (by omega)
    rw [hLeq] at h'
    have hrev : l.reverse.dropWhile jsWs = l.reverse := by
      have := congrArg List.reverse h'
      simpa using this
    refine ⟨dropWhile_eq_self_head jsWs l hl hLeq, ?_⟩
    have hrne : l.reverse ≠ [] := by simpa using hl
    have hh := dropWhile_eq_self_head jsWs l.reverse hrne hrev
    rwa [headD_reverse] at hh
  · rintro ⟨hh, ht⟩
    have hLeq : l.dropWhile jsWs = l := by
      cases l with
      | nil => rfl
      | cons c rest =>
        exact dropWhile_eq_self_of_head jsWs c rest (by simpa using hh)
    have hrev : l.reverse.dropWhile jsWs = l.reverse := by
      cases hr : l.reverse with
      | nil => rfl
      | cons c rest =>
        rw [dropWhile_eq_self_of_head jsWs c rest (by
          have h1 := ht
          rw [← headD_reverse l 'x'] at h1
          rw [hr] at h1
          simpa using h1)]
    show ((l.dropWhile jsWs).reverse.dropWhile jsWs).reverse = l
    rw [hLeq, hrev, List.reverse_reverse]

theorem trimAtom_eq (l : List Char) :
    (l.isEmpty || !(jsTrimL l == l)) =
    (l.isEmpty || jsWs (l.headD 'x') || jsWs (l.getLastD 'x')) := by
  cases hl : l with
  | nil => rfl
  | cons c rest =>
    rw [← hl]
    have hne : l ≠ [] := by simp [hl]
    have hemp : l.isEmpty = false := by simp [hl]
    rw [hemp]
    simp only [Bool.false_or]
    by_cases hh : jsWs (l.headD 'x') = true
    · rw [hh]
      have hne2 : jsTrimL l ≠ l := fun he => by
        have h1 := ((jsTrimL_eq_self_iff l hne).mp he).1
        rw [hh] at h1
        exact Bool.noConfusion h1
      simp [hne2]
    · have hh' : jsWs (l.headD 'x') = false := by
        revert hh
        cases jsWs (l.headD 'x') <;> simp
      rw [hh']
      simp only [Bool.false_or]
      by_cases ht : jsWs (l.getLastD 'x') = true
      · rw [ht]
        have hne2 : jsTrimL l ≠ l := fun he => by
          have h1 := ((jsTrimL_eq_self_iff l hne).mp he).2
          rw [ht] at h1
          exact Bool.noConfusion h1
        simp [hne2]
      · have ht' : jsWs (l.getLastD 'x') = false := by
          revert ht
          cases jsWs (l.getLastD 'x') <;> simp
        rw [ht']
        have : jsTrimL l = l := (jsTrimL_eq_self_iff l hne).mpr ⟨hh', ht'⟩
        simp [this]

theorem if_true_or_prop (p : Prop) [Decidable p] (x : Bool) :
    (if p then true else x) = (decide p || x) := by
  by_cases h : p <;> simp [h]

theorem needsQuoting_eq_spec (v : String) (d : Delim) :
    needsQuoting v d = specNeedsQuoting v d := by
  simp only [needsQuoting, specNeedsQuoting]
  rw [if_true_or, if_true_or, if_true_or, if_true_or_prop, trimAtom_eq,
    specialScan_eq_any]
  simp only [Bool.or_assoc]

theorem strData_append (a b : String) : (a ++ b).data = a.data ++ b.data := by
  cases a
  cases b
  rfl


theorem spec_false_no_quote_char (v : String) (d : Delim)
    (h : specNeedsQuoting v d = false) :
    decide (v.data.headD 'x' = '"') = false := by
  simp only [specNeedsQuoting, Bool.or_eq_false_iff] at h
  obtain ⟨hrest, hany⟩ := h
  cases hv : v.data with
  | nil => rfl
  | cons c cs =>
    rw [hv] at hany
    rw [List.any_cons, Bool.or_eq_false_iff] at hany
    have hc := hany.1
    simp only [Bool.or_eq_false_iff] at hc
    simp only [List.headD_cons]
    exact hc.1.1.1.1.1.1.1.1.1.2

theorem keyRegex_no_quote_char (v : String)
    (h : keyRegexMatch v.data = true) :
    decide (v.data.headD 'x' = '"') = false := by
  cases hv : v.data with
  | nil =>
    rw [hv] at h
    exact Bool.noConfusion h
  | cons c cs =>
    rw [hv] at h
    simp only [keyRegexMatch, Bool.and_eq_true] at h
    have hs := h.1
    have hc : ¬(c = '"') := fun he => by
      subst he
      exact absurd hs (by decide)
    simp only [List.headD_cons]
    simpa using hc

theorem isQuotedOut_wrap (X : List Char) :
    (decide (2 ≤ (('"' :: X) ++ ['"']).length) &&
     decide ((('"' :: X) ++ ['"']).headD 'x' = '"') &&
     decide ((('"' :: X) ++ ['"']).getLastD 'x' = '"')) = true := by
  have h1 : (('"' :: X) ++ ['"']).length = X.length + 2 := by
    rw [List.length_append]
    rfl
  have h2 : (('"' :: X) ++ ['"']).headD 'x' = '"' := rfl
  have h3 : (('"' :: X) ++ ['"']).getLastD 'x' = '"' :=
    getLastD_append_singleton' ('"' :: X) '"' 'x'
  rw [h1, h2, h3]
  simp [Nat.le_add_left]

theorem isQuotedOut_quoted_form (v : String) :
    isQuotedOut ("\"" ++ escapeString v ++ "\"") = true := by
  simp only [isQuotedOut, strData_append]
  exact isQuotedOut_wrap (escapeString v).data

/-- Claim C8, counterexample: the key `true` is a reserved literal, so the
claim requires it quoted, yet `encodeKey` emits it verbatim because it
matches `KEY_REGEX`. -/
theorem c8_cex_reserved_key_unquoted :
    encodeKey "true" .comma = "true" ∧
    isQuotedOut (encodeKey "true" .comma) = false ∧
    specNeedsQuoting "true" .comma = true := ⟨by decide, by decide, by decide⟩

/-- Claim C8 as amended: a string VALUE is emitted quoted exactly under the
claim's condition (empty / boundary whitespace / reserved literal /
number-shaped / leading `-` / special character or active delimiter); a KEY
is emitted quoted exactly when it fails `KEY_REGEX` and satisfies that same
condition — keys matching `KEY_REGEX` (including the reserved literals) are
emitted verbatim. -/
theorem c8_amended_quoting (v : String) (d : Delim) :
    needsQuoting v d = specNeedsQuoting v d ∧
    isQuotedOut (quoteString v d) = specNeedsQuoting v d ∧
    isQuotedOut (encodeKey v d) =
      (!(keyRegexMatch v.data) && specNeedsQuoting v d) := by
  refine ⟨needsQuoting_eq_spec v d, ?_, ?_⟩
  · by_cases hn : needsQuoting v d = true
    · rw [quoteString, if_pos hn, isQuotedOut_quoted_form,
        ← needsQuoting_eq_spec, hn]
    · have hn' : needsQuoting v d = false := by
        revert hn
        cases needsQuoting v d <;> simp
      rw [quoteString, if_neg (by simp [hn'])]
      have hspec : specNeedsQuoting v d = false := by
        rw [← needsQuoting_eq_spec, hn']
      rw [hspec, isQuotedOut, spec_false_no_quote_char v d hspec]
      simp
  · by_cases hk : keyRegexMatch v.data = true
    · rw [encodeKey, if_pos hk, hk]
      rw [isQuotedOut, keyRegex_no_quote_char v hk]
      simp
    · have hk' : keyRegexMatch v.data = false := by
        revert hk
        cases keyRegexMatch v.data <;> simp
      rw [encodeKey, if_neg (by simp [hk'])]
      rw [hk']
      simp only [Bool.not_false, Bool.true_and]
      by_cases hn : needsQuoting v d = true
      · rw [quoteString, if_pos hn, isQuotedOut_quoted_form,
          ← needsQuoting_eq_spec, hn]
      · have hn' : needsQuoting v d = false := by
          revert hn
          cases needsQuoting v d <;> simp
        rw [quoteString, if_neg (by simp [hn'])]
        have hspec : specNeedsQuoting v d = false := by
          rw [← needsQuoting_eq_spec, hn']
        rw [hspec, isQuotedOut, spec_false_no_quote_char v d hspec]
        simp

/-! ## Claim C6: indentation depth -/

/-- Whether the leading whitespace run of a line contains a tab. -/
def hasLeadingTab : List Char → Bool
  | [] => false
  | c :: rest =>
    if c = ' ' then hasLeadingTab rest
    else if c = '\t' then true
    else false

/-- The number of leading space characters (up to the first character that
is neither a space nor, transitively, more spaces). -/
def pureSpaceCount : List Char → Nat
  | [] => 0
  | c :: rest => if c = ' ' then 1 + pureSpaceCount rest else 0

/-- The leading-space count with every tab in the leading run counted as
`indentSize` spaces (the non-strict widening of the claim). -/
def weightedSpaces (indentSize : Nat) : List Char → Nat
  | [] => 0
  | c :: rest =>
    if c = ' ' then 1 + weightedSpaces indentSize rest
    else if c = '\t' then indentSize + weightedSpaces indentSize rest
    else 0

theorem depthSpaces_nonstrict (lineNum indentSize : Nat) :
    ∀ (cs : List Char) (acc : Nat),
      depthSpaces false lineNum indentSize cs acc =
        .ok (acc + weightedSpaces indentSize cs)
  | [], acc => by simp [depthSpaces, weightedSpaces]
  | c :: rest, acc => by
    simp only [depthSpaces, weightedSpaces]
    by_cases hsp : c = ' '
    · rw [if_pos hsp, if_pos hsp,
        depthSpaces_nonstrict lineNum indentSize rest (acc + 1)]
      congr 1
      omega
    · rw [if_neg hsp, if_neg hsp]
      by_cases htb : c = '\t'
      · rw [if_pos htb, if_pos htb, if_neg (by decide : ¬(false = true)),
          depthSpaces_nonstrict lineNum indentSize rest (acc + indentSize)]
        congr 1
        omega
      · rw [if_neg htb, if_neg htb]
        simp

theorem depthSpaces_strict (lineNum indentSize : Nat) :
    ∀ (cs : List Char) (acc : Nat),
      depthSpaces true lineNum indentSize cs acc =
        if hasLeadingTab cs then .error (.tabsInIndent (lineNum + 1))
        else .ok (acc + pureSpaceCount cs)
  | [], acc => by simp [depthSpaces, hasLeadingTab, pureSpaceCount]
  | c :: rest, acc => by
    simp only [depthSpaces, hasLeadingTab, pureSpaceCount]
    by_cases hsp : c = ' '
    · rw [if_pos hsp, if_pos hsp, if_pos hsp,
        depthSpaces_strict lineNum indentSize rest (acc + 1)]
      split
      · simp
      · simp
        omega
    · rw [if_neg hsp, if_neg hsp, if_neg hsp]
      by_cases htb : c = '\t'
      · rw [if_pos htb, if_pos htb]
        simp
      · rw [if_neg htb, if_neg htb]
        simp

/-- Claim C6: for every line, the non-strict depth is
`floor(leadingSpaces / indentSize)` with a tab counted as `indentSize`
spaces; strict mode errors on a leading tab and on a space count that is
not a multiple of `indentSize`, and otherwise yields the same floor; and
the claim's concrete document behaves as stated under both modes. -/
theorem c6_depth_floor_and_strictness (line : String) (n indentSize : Nat)
    (hsz : 0 < indentSize) :
    getDepth line n indentSize false =
      .ok (weightedSpaces indentSize line.data / indentSize) ∧
    getDepth line n indentSize true =
      (if hasLeadingTab line.data then .error (.tabsInIndent (n + 1))
       else if pureSpaceCount line.data % indentSize ≠ 0 then
         .error (.badIndent (n + 1) indentSize)
       else .ok (pureSpaceCount line.data / indentSize)) ∧
    parseDoc {} "obj:\n   key: value" = .error (.badIndent 2 2) ∧
    parseDoc { strict := false } "obj:\n   key: value" =
      .ok (.obj [("obj", .obj [("key", .str "value")])]) := by
  refine ⟨?_, ?_, by decide, by decide⟩
  · simp only [getDepth, depthSpaces_nonstrict n indentSize line.data 0,
      exceptBind_ok]
    simp
  · simp only [getDepth, depthSpaces_strict n indentSize line.data 0]
    split
    · simp [exceptBind_error]
    · simp only [Nat.zero_add, exceptBind_ok, Bool.true_and]
      split
      · rename_i hmod
        simp only [bne_iff_ne, ne_eq] at hmod
        simp [hmod]
      · rename_i hmod
        simp only [bne_iff_ne, ne_eq, not_not] at hmod
        simp [hmod]

/-- Witness for C6 at the concrete line `"   key: value"` with
`indentSize = 2`: three leading spaces floor to depth 1 in non-strict mode
and raise the indentation error in strict mode. -/
theorem c6_witness :
    getDepth "   key: value" 1 2 false =
      .ok (weightedSpaces 2 "   key: value".data / 2) ∧
    getDepth "   key: value" 1 2 true =
      (if hasLeadingTab "   key: value".data then
        .error (.tabsInIndent 2)
       else if pureSpaceCount "   key: value".data % 2 ≠ 0 then
         .error (.badIndent 2 2)
       else .ok (pureSpaceCount "   key: value".data / 2)) :=
  ⟨(c6_depth_floor_and_strictness "   key: value" 1 2 (by decide)).1,
   (c6_depth_floor_and_strictness "   key: value" 1 2 (by decide)).2.1⟩

/-! ## Claim C2: length mismatches, strict and non-strict -/

theorem exceptMapErr {α β : Type} (g : α → β) (x : Except ToonErr α)
    (e : ToonErr) (h : (g <$> x) = .error e) : x = .error e := by
  cases x with
  | ok a =>
    rw [exceptMap_ok] at h
    exact Except.noConfusion h
  | error e2 =>
    rw [exceptMap_error] at h
    rw [Except.error.inj h]

theorem exceptBindErr {α β : Type} (x : Except ToonErr α)
    (f : α → Except ToonErr β) (e : ToonErr) (h : (x >>= f) = .error e) :
    x = .error e ∨ ∃ a, x = .ok a ∧ f a = .error e := by
  cases x with
  | ok a =>
    rw [exceptBind_ok] at h
    exact .inr ⟨a, rfl, h⟩
  | error e2 =>
    rw [exceptBind_error] at h
    exact .inl (by rw [Except.error.inj h])

theorem unescapeCore_err : ∀ (strict : Bool) (cs : List Char) (e : ToonErr),
    unescapeCore strict cs = .error e → e.isLenErr = false
  | _, [], _ => fun h => Except.noConfusion h
  | strict, [c], e => fun h => by
    by_cases hc : c = '\\'
    · subst hc
      simp [unescapeCore] at h
    · simp only [unescapeCore, if_neg hc] at h
      exact Except.noConfusion (exceptMapErr _ _ e h)
  | strict, c :: d :: rest2, e => fun h => by
    by_cases hc : c = '\\'
    · subst hc
      simp only [unescapeCore, if_pos rfl] at h
      by_cases h1 : d = '\\'
      · rw [if_pos h1] at h
        exact unescapeCore_err strict rest2 e (exceptMapErr _ _ e h)
      · rw [if_neg h1] at h
        by_cases h2 : d = '"'
        · rw [if_pos h2] at h
          exact unescapeCore_err strict rest2 e (exceptMapErr _ _ e h)
        · rw [if_neg h2] at h
          by_cases h3 : d = 'n'
          · rw [if_pos h3] at h
            exact unescapeCore_err strict rest2 e (exceptMapErr _ _ e h)
          · rw [if_neg h3] at h
            by_cases h4 : d = 'r'
            · rw [if_pos h4] at h
              exact unescapeCore_err strict rest2 e (exceptMapErr _ _ e h)
            · rw [if_neg h4] at h
              by_cases h5 : d = 't'
              · rw [if_pos h5] at h
                exact unescapeCore_err strict rest2 e (exceptMapErr _ _ e h)
              · rw [if_neg h5] at h
                by_cases hs : strict = true
                · rw [if_pos hs] at h
                  rw [← Except.error.inj h]
                  rfl
                · rw [if_neg hs] at h
                  exact unescapeCore_err strict rest2 e (exceptMapErr _ _ e h)
    · simp only [unescapeCore, if_neg hc] at h
      exact unescapeCore_err strict (d :: rest2) e (exceptMapErr _ _ e h)

theorem parsePrimitive_err (s : String) (e : ToonErr)
    (h : parsePrimitive s = .error e) : e.isLenErr = false := by
  simp only [parsePrimitive] at h
  by_cases hq : quotedSpan (jsTrimL s.data) = true
  · rw [if_pos hq] at h
    exact unescapeCore_err true _ e (exceptMapErr _ _ e h)
  · rw [if_neg hq] at h
    repeat' split at h
    all_goals exact Except.noConfusion h

theorem parseKey_err (k : String) (e : ToonErr)
    (h : parseKey k = .error e) : e.isLenErr = false := by
  simp only [parseKey] at h
  by_cases hq : quotedSpan k.data = true
  · rw [if_pos hq] at h
    exact unescapeCore_err true _ e (exceptMapErr _ _ e h)
  · rw [if_neg hq] at h
    exact Except.noConfusion h

theorem mapM_err {α β : Type} (f : α → Except ToonErr β)
    (hf : ∀ a e, f a = .error e → e.isLenErr = false) :
    ∀ (l : List α) (e : ToonErr), l.mapM f = .error e → e.isLenErr = false
  | [], e => fun h => Except.noConfusion h
  | a :: l, e => fun h => by
    rw [List.mapM_cons] at h
    rcases exceptBindErr _ _ _ h with h1 | ⟨b, hb, h2⟩
    · exact hf a e h1
    · rcases exceptBindErr _ _ _ h2 with h3 | ⟨bs, hbs, h4⟩
      · exact mapM_err f hf l e h3
      · exact Except.noConfusion h4

theorem parseArrayHeader_err (content : String) (e : ToonErr)
    (h : parseArrayHeader content = .error e) : e.isLenErr = false := by
  simp only [parseArrayHeader] at h
  split at h
  · split at h
    · split at h
      · rcases exceptBindErr _ _ _ h with h1 | ⟨y, hy, h2⟩
        · exact mapM_err _ (fun a e' h' => parseKey_err _ e' h') _ e
            (exceptMapErr _ _ e h1)
        · exact Except.noConfusion h2
      · exact Except.noConfusion h
    · exact Except.noConfusion h
  · exact Except.noConfusion h

theorem strict_tabular_len (fuel : Nat) (lines : List PLine) (s d : Nat)
    (hdr : ArrayHeader) (fields : List String) (xs : List Json) (i : Nat)
    (h : parseTabularArray fuel lines s d hdr fields true = .ok (xs, i)) :
    (xs.length : Int) = hdr.length := by
  match fuel with
  | 0 => exact Except.noConfusion h
  | fuel + 1 =>
    simp only [parseTabularArray] at h
    cases hloop : tabularLoop fuel lines (s + 1) d hdr fields true [] with
    | error e =>
      rw [hloop, exceptBind_error] at h
      exact Except.noConfusion h
    | ok p =>
      rw [hloop, exceptBind_ok] at h
      obtain ⟨rows, idx⟩ := p
      by_cases hlen : ((rows.length : Int) != hdr.length) = true
      · rw [if_pos (by simp [hlen])] at h
        exact Except.noConfusion h
      · rw [if_neg (by simp [hlen])] at h
        have hx : rows = xs := congrArg Prod.fst (Except.ok.inj h)
        subst hx
        simpa using hlen

theorem strict_list_len (fuel : Nat) (lines : List PLine) (s d : Nat)
    (hdr : ArrayHeader) (xs : List Json) (i : Nat)
    (h : parseListArray fuel lines s d hdr true = .ok (xs, i)) :
    (xs.length : Int) = hdr.length := by
  match fuel with
  | 0 => exact Except.noConfusion h
  | fuel + 1 =>
    simp only [parseListArray] at h
    cases hloop : listLoop fuel lines (s + 1) d hdr true [] with
    | error e =>
      rw [hloop, exceptBind_error] at h
      exact Except.noConfusion h
    | ok p =>
      rw [hloop, exceptBind_ok] at h
      obtain ⟨res, idx⟩ := p
      by_cases hlen : ((res.length : Int) != hdr.length) = true
      · rw [if_pos (by simp [hlen])] at h
        exact Except.noConfusion h
      · rw [if_neg (by simp [hlen])] at h
        have hx : res = xs := congrArg Prod.fst (Except.ok.inj h)
        subst hx
        simpa using hlen

theorem strict_content_len (fuel : Nat) (lines : List PLine) (s d : Nat)
    (hdr : ArrayHeader) (vp : String) (xs : List Json) (i : Nat)
    (h : parseArrayContent fuel lines s d hdr vp true = .ok (xs, i)) :
    (xs.length : Int) = hdr.length := by
  match fuel with
  | 0 => exact Except.noConfusion h
  | fuel + 1 =>
    simp only [parseArrayContent] at h
    split at h
    · cases hm : (splitDelimited vp hdr.delimiter).mapM
          (fun v => parsePrimitive (jsTrim v)) with
      | error e =>
        rw [hm, exceptBind_error] at h
        exact Except.noConfusion h
      | ok result =>
        rw [hm, exceptBind_ok] at h
        by_cases hlen : ((result.length : Int) != hdr.length) = true
        · rw [if_pos (by simp [hlen])] at h
          exact Except.noConfusion h
        · rw [if_neg (by simp [hlen])] at h
          have hx : result = xs := congrArg Prod.fst (Except.ok.inj h)
          subst hx
          simpa using hlen
    · split at h
      · split at h
        · exact strict_tabular_len fuel lines s d hdr _ xs i h
        · exact strict_list_len fuel lines s d hdr xs i h
      · exact strict_list_len fuel lines s d hdr xs i h

theorem parseErr_nonstrict :
    ∀ fuel : Nat,
      (∀ lines s d obj r,
        parseObject fuel lines s d false obj = .error r →
          r.isLenErr = false) ∧
      (∀ lines s d hdr vp r,
        parseArrayContent fuel lines s d hdr vp false = .error r →
          r.isLenErr = false) ∧
      (∀ lines s d hdr fields r,
        parseTabularArray fuel lines s d hdr fields false = .error r →
          r.isLenErr = false) ∧
      (∀ lines i d hdr fields rows r,
        tabularLoop fuel lines i d hdr fields false rows = .error r →
          r.isLenErr = false) ∧
      (∀ lines s d hdr r,
        parseListArray fuel lines s d hdr false = .error r →
          r.isLenErr = false) ∧
      (∀ lines i d hdr res r,
        listLoop fuel lines i d hdr false res = .error r →
          r.isLenErr = false) ∧
      (∀ lines i d obj r,
        extraFieldsLoop fuel lines i d false obj = .error r →
          r.isLenErr = false) := by
  intro fuel
  induction fuel with
  | zero =>
    refine ⟨fun _ _ _ _ r h => ?_, fun _ _ _ _ _ r h => ?_,
      fun _ _ _ _ _ r h => ?_, fun _ _ _ _ _ _ r h => ?_,
      fun _ _ _ _ r h => ?_, fun _ _ _ _ _ r h => ?_,
      fun _ _ _ _ r h => ?_⟩
    all_goals (rw [← Except.error.inj h]; rfl)
  | succ fuel ih =>
    obtain ⟨ihO, ihA, ihT, ihTL, ihL, ihLL, ihEF⟩ := ih
    refine ⟨?_, ?_, ?_, ?_, ?_, ?_, ?_⟩
    · -- parseObject
      intro lines s d obj r h
      cases hline : lines[s]? with
      | none =>
        simp only [parseObject, hline] at h
        exact Except.noConfusion h
      | some line =>
        simp only [parseObject, hline] at h
        by_cases hd1 : line.depth < d
        · rw [if_pos hd1] at h
          exact Except.noConfusion h
        · rw [if_neg hd1] at h
          by_cases hd2 : line.depth > d
          · rw [if_pos hd2] at h
            exact ihO lines (s + 1) d obj r h
          · rw [if_neg hd2] at h
            cases hcol : findUnquotedColon line.content with
            | none =>
              simp only [hcol, Bool.false_eq_true, if_false] at h
              exact ihO lines (s + 1) d obj r h
            | some colonIdx =>
              simp only [hcol] at h
              split at h
              · rcases exceptBindErr _ _ _ h with h1 | ⟨header, hh, h2⟩
                · exact parseArrayHeader_err _ r h1
                · rcases exceptBindErr _ _ _ h2 with h3 | ⟨result, hres, h4⟩
                  · exact ihA lines s d header _ r h3
                  · exact ihO lines result.2 d _ r h4
              · rcases exceptBindErr _ _ _ h with h1 | ⟨key, hk, h2⟩
                · exact parseKey_err _ r h1
                · split at h2
                  · split at h2
                    · split at h2
                      · rcases exceptBindErr _ _ _ h2 with
                          h3 | ⟨result, hres, h4⟩
                        · exact ihO lines (s + 1) (d + 1) [] r h3
                        · exact ihO lines result.2 d _ r h4
                      · exact ihO lines (s + 1) d _ r h2
                    · exact ihO lines (s + 1) d _ r h2
                  · rcases exceptBindErr _ _ _ h2 with h3 | ⟨v, hv, h4⟩
                    · exact parsePrimitive_err _ r h3
                    · exact ihO lines (s + 1) d _ r h4
    · -- parseArrayContent
      intro lines s d hdr vp r h
      simp only [parseArrayContent] at h
      split at h
      · rcases exceptBindErr _ _ _ h with h1 | ⟨result, hres, h2⟩
        · exact mapM_err _ (fun a e' h' => parsePrimitive_err _ e' h') _ r h1
        · simp at h2
      · split at h
        · split at h
          · exact ihT lines s d hdr _ r h
          · exact ihL lines s d hdr r h
        · exact ihL lines s d hdr r h
    · -- parseTabularArray
      intro lines s d hdr fields r h
      simp only [parseTabularArray] at h
      rcases exceptBindErr _ _ _ h with h1 | ⟨p, hp, h2⟩
      · exact ihTL lines (s + 1) d hdr fields [] r h1
      · obtain ⟨rows, idx⟩ := p
        simp at h2
    · -- tabularLoop
      intro lines i d hdr fields rows r h
      cases hline : lines[i]? with
      | none =>
        simp only [tabularLoop, hline] at h
        exact Except.noConfusion h
      | some line =>
        simp only [tabularLoop, hline] at h
        by_cases h1 : line.depth < d + 1
        · rw [if_pos h1] at h
          exact Except.noConfusion h
        · rw [if_neg h1] at h
          by_cases h2 : line.depth = d + 1
          · rw [if_pos h2] at h
            rw [if_neg (by simp)] at h
            rcases exceptBindErr _ _ _ h with h3 | ⟨row, hrow, h4⟩
            · exact mapM_err _ (fun a e' h' => parsePrimitive_err _ e' h')
                _ r h3
            · exact ihTL lines (i + 1) d hdr fields _ r h4
          · rw [if_neg h2] at h
            exact ihTL lines (i + 1) d hdr fields rows r h
    · -- parseListArray
      intro lines s d hdr r h
      simp only [parseListArray] at h
      rcases exceptBindErr _ _ _ h with h1 | ⟨p, hp, h2⟩
      · exact ihLL lines (s + 1) d hdr [] r h1
      · obtain ⟨res, idx⟩ := p
        simp at h2
    · -- listLoop
      intro lines i d hdr res r h
      cases hline : lines[i]? with
      | none =>
        simp only [listLoop, hline] at h
        exact Except.noConfusion h
      | some line =>
        simp only [listLoop, hline] at h
        by_cases h1 : line.depth < d + 1
        · rw [if_pos h1] at h
          exact Except.noConfusion h
        · rw [if_neg h1] at h
          split at h
          · split at h
            · rcases exceptBindErr _ _ _ h with h2 | ⟨itemHeader, hih, h3⟩
              · exact parseArrayHeader_err _ r h2
              · rcases exceptBindErr _ _ _ h3 with h4 | ⟨item, hit, h5⟩
                · exact mapM_err _ (fun a e' h' => parsePrimitive_err _ e' h')
                    _ r h4
                · exact ihLL lines (i + 1) d hdr _ r h5
            · split at h
              · rcases exceptBindErr _ _ _ h with h2 | ⟨key, hk, h3⟩
                · exact parseKey_err _ r h2
                · split at h3
                  · split at h3
                    · split at h3
                      · rcases exceptBindErr _ _ _ h3 with
                          h4 | ⟨objResult, ho, h5⟩
                        · exact ihO lines (i + 1) (d + 2) [] r h4
                        · rcases exceptBindErr _ _ _ h5 with h6 | ⟨y, hy, h7⟩
                          · exact Except.noConfusion h6
                          · rcases exceptBindErr _ _ _ h7 with
                              h8 | ⟨pd, hpd, h9⟩
                            · exact ihEF lines y.2 d y.1 r h8
                            · exact ihLL lines pd.2 d hdr _ r h9
                      · rcases exceptBindErr _ _ _ h3 with h4 | ⟨y, hy, h5⟩
                        · exact Except.noConfusion h4
                        · rcases exceptBindErr _ _ _ h5 with
                            h6 | ⟨pd, hpd, h7⟩
                          · exact ihEF lines y.2 d y.1 r h6
                          · exact ihLL lines pd.2 d hdr _ r h7
                    · rcases exceptBindErr _ _ _ h3 with h4 | ⟨y, hy, h5⟩
                      · exact Except.noConfusion h4
                      · rcases exceptBindErr _ _ _ h5 with h6 | ⟨pd, hpd, h7⟩
                        · exact ihEF lines y.2 d y.1 r h6
                        · exact ihLL lines pd.2 d hdr _ r h7
                  · rcases exceptBindErr _ _ _ h3 with h4 | ⟨v, hv, h5⟩
                    · exact parsePrimitive_err _ r h4
                    · rcases exceptBindErr _ _ _ h5 with h6 | ⟨y, hy, h7⟩
                      · exact Except.noConfusion h6
                      · rcases exceptBindErr _ _ _ h7 with
                          h8 | ⟨pd, hpd, h9⟩
                        · exact ihEF lines y.2 d y.1 r h8
                        · exact ihLL lines pd.2 d hdr _ r h9
              · rcases exceptBindErr _ _ _ h with h2 | ⟨v, hv, h3⟩
                · exact parsePrimitive_err _ r h2
                · exact ihLL lines (i + 1) d hdr _ r h3
          · exact ihLL lines (i + 1) d hdr res r h
    · -- extraFieldsLoop
      intro lines i d obj r h
      cases hline : lines[i]? with
      | none =>
        simp only [extraFieldsLoop, hline] at h
        exact Except.noConfusion h
      | some line =>
        simp only [extraFieldsLoop, hline] at h
        split at h
        · split at h
          · rcases exceptBindErr _ _ _ h with h1 | ⟨fKey, hk, h2⟩
            · exact parseKey_err _ r h1
            · rcases exceptBindErr _ _ _ h2 with h3 | ⟨fValue, hv, h4⟩
              · exact parsePrimitive_err _ r h3
              · exact ihEF lines (i + 1) d _ r h4
          · exact ihEF lines (i + 1) d obj r h
        · exact Except.noConfusion h

/-- Claim C2: strict-mode array parsing only succeeds when the parsed
element count equals the declared header length (so any mismatch raises);
non-strict parsing of the object and array forms can never produce one of
the length/width mismatch errors; and `items[3]: a,b` errors strictly with
an inline length mismatch but parses non-strictly to
`{items: ["a", "b"]}`. -/
theorem c2_length_mismatch_modes :
    (∀ fuel lines s d hdr vp xs i,
      parseArrayContent fuel lines s d hdr vp true = .ok (xs, i) →
      (xs.length : Int) = hdr.length) ∧
    (∀ fuel lines s d obj r,
      parseObject fuel lines s d false obj = .error r →
        r.isLenErr = false) ∧
    (∀ fuel lines s d hdr vp r,
      parseArrayContent fuel lines s d hdr vp false = .error r →
        r.isLenErr = false) ∧
    parseDoc {} "items[3]: a,b" = .error (.inlineLengthMismatch 3 2) ∧
    parseDoc { strict := false } "items[3]: a,b" =
      .ok (.obj [("items", .arr [.str "a", .str "b"])]) := by
  refine ⟨fun fuel lines s d hdr vp xs i h =>
      strict_content_len fuel lines s d hdr vp xs i h,
    fun fuel lines s d obj r h =>
      (parseErr_nonstrict fuel).1 lines s d obj r h,
    fun fuel lines s d hdr vp r h =>
      (parseErr_nonstrict fuel).2.1 lines s d hdr vp r h,
    by decide, by decide⟩

/-- Witness for C2 at concrete inputs: a strict inline parse that succeeds
has exactly the declared length, and a non-strict run that errors (here by
fuel exhaustion in the model) never reports a length mismatch. -/
theorem c2_witness :
    parseArrayContent 1 [] 0 0 ⟨none, 2, Delim.comma, none⟩ "a,b" true =
      .ok ([Json.str "a", Json.str "b"], 1) ∧
    (([Json.str "a", Json.str "b"].length : Int) =
      (ArrayHeader.mk none 2 Delim.comma none).length) ∧
    parseObject 0 [] 0 0 false [] = .error .outOfFuel ∧
    ToonErr.outOfFuel.isLenErr = false := by
  refine ⟨by decide, ?_, by decide, ?_⟩
  · exact c2_length_mismatch_modes.1 1 [] 0 0 ⟨none, 2, Delim.comma, none⟩
      "a,b" [Json.str "a", Json.str "b"] 1 (by decide)
  · exact c2_length_mismatch_modes.2.1 0 [] 0 0 [] .outOfFuel (by decide)

/-! ## Claim C7: tabular arrays -/

/-- The tabular condition as the claim states it: the array is non-empty,
every element is a plain object, every element's key list is a permutation
of the first element's key list (identical key set, order-insensitive), and
every value in every element is primitive. -/
def specTabularCond (value : List Json) : Prop :=
  value ≠ [] ∧
  (∀ v ∈ value, isPlainObj v = true) ∧
  (∀ v ∈ value,
    ((objKvs v).map Prod.fst).Perm
      ((objKvs (value.headD .null)).map Prod.fst)) ∧
  (∀ v ∈ value, ∀ kv ∈ objKvs v, isPrimitive kv.2 = true)

theorem sortStrings_eq_iff_perm (ka kb : List String) :
    sortStrings ka = sortStrings kb ↔ ka.Perm kb := by
  constructor
  · intro h
    have h1 : List.Perm (sortStrings ka) ka := List.perm_insertionSort strLe ka
    have h2 : List.Perm (sortStrings kb) kb := List.perm_insertionSort strLe kb
    have h3 : List.Perm (sortStrings ka) kb := by rw [h]; exact h2
    exact h1.symm.trans h3
  · intro hp
    exact List.eq_of_perm_of_sorted
      (((List.perm_insertionSort strLe ka).trans hp).trans
        (List.perm_insertionSort strLe kb).symm)
      (List.sorted_insertionSort strLe ka)
      (List.sorted_insertionSort strLe kb)

theorem checkTabular_iff (value : List Json) :
    (checkTabular value).isSome = true ↔ specTabularCond value := by
  simp only [checkTabular, specTabularCond]
  by_cases h0 : value.length = 0
  · rw [if_pos h0]
    have hve : value = [] := List.length_eq_zero.mp h0
    subst hve
    simp
  · rw [if_neg h0]
    have hvne : value ≠ [] := by
      intro he
      exact h0 (by simp [he])
    by_cases hall : value.all isPlainObj = true
    · rw [if_neg (by simp [hall])]
      split
      · rename_i hbig
        refine iff_of_true rfl ⟨hvne, ?_, ?_, ?_⟩
        · exact fun v hv => List.all_eq_true.mp hall v hv
        · intro v hv
          have hb := List.all_eq_true.mp hbig v hv
          simp only [Bool.and_eq_true, decide_eq_true_eq] at hb
          exact (sortStrings_eq_iff_perm _ _).mp hb.1.2
        · intro v hv kv hkv
          have hb := List.all_eq_true.mp hbig v hv
          simp only [Bool.and_eq_true, decide_eq_true_eq] at hb
          exact List.all_eq_true.mp hb.2 kv.2
            (List.mem_map_of_mem Prod.snd hkv)
      · rename_i hbig
        refine iff_of_false (by simp) ?_
        rintro ⟨-, hobj, hperm, hprim⟩
        apply hbig
        apply List.all_eq_true.mpr
        intro v hv
        simp only [Bool.and_eq_true, decide_eq_true_eq]
        have hkeys : sortStrings ((objKvs v).map Prod.fst) =
            sortStrings ((objKvs (value.headD .null)).map Prod.fst) :=
          (sortStrings_eq_iff_perm _ _).mpr (hperm v hv)
        refine ⟨⟨?_, hkeys⟩, ?_⟩
        · rw [hkeys]
        · apply List.all_eq_true.mpr
          intro x hx
          obtain ⟨kv, hkv, rfl⟩ := List.mem_map.mp hx
          exact hprim v hv kv hkv
    · rw [if_pos (by simp [hall])]
      refine iff_of_false (by simp) ?_
      rintro ⟨-, hobj, -, -⟩
      exact hall (List.all_eq_true.mpr fun v hv => hobj v hv)

/-- The claim's concrete example value `{users: [{id: 1, name: "Alice"},
{id: 2, name: "Bob"}]}`. -/
def usersExample : Json :=
  .obj [("users", .arr [
    .obj [("id", .num 1), ("name", .str "Alice")],
    .obj [("id", .num 2), ("name", .str "Bob")]])]

set_option maxRecDepth 8192 in
/-- Claim C7: an array qualifies for tabular encoding exactly when it is
non-empty with all elements plain objects over an identical key set
(order-insensitive) and all-primitive values; the field list is the first
object's keys in insertion order; and the claim's `users` example encodes
to exactly the stated text and parses back to the original value. -/
theorem c7_tabular_encoding :
    (∀ value : List Json,
      (checkTabular value).isSome = true ↔ specTabularCond value) ∧
    (∀ (value : List Json) (fields : List String),
      checkTabular value = some fields →
      fields = (objKvs (value.headD .null)).map Prod.fst) ∧
    encode {} usersExample =
      "users[2]\x7bid,name\x7d:\n  1,Alice\n  2,Bob" ∧
    parseDoc {} "users[2]\x7bid,name\x7d:\n  1,Alice\n  2,Bob" =
      .ok usersExample := by
  refine ⟨checkTabular_iff, ?_, by decide, by decide⟩
  intro value fields h
  simp only [checkTabular] at h
  split at h
  · exact Option.noConfusion h
  · split at h
    · exact Option.noConfusion h
    · split at h
      · exact (Option.some.inj h).symm
      · exact Option.noConfusion h

/-- Witness for C7 at a concrete two-object array whose second object lists
its keys in the opposite insertion order: the tabular check succeeds and
the field list is the first object's insertion order. -/
theorem c7_witness :
    checkTabular [Json.obj [("id", Json.num 1), ("name", Json.str "Alice")],
        Json.obj [("name", Json.str "Bob"), ("id", Json.num 2)]] =
      some ["id", "name"] ∧
    (["id", "name"] : List String) =
      (objKvs (([Json.obj [("id", Json.num 1), ("name", Json.str "Alice")],
        Json.obj [("name", Json.str "Bob"), ("id", Json.num 2)]]).headD
          .null)).map Prod.fst :=
  ⟨by decide,
   c7_tabular_encoding.2.1
     [Json.obj [("id", Json.num 1), ("name", Json.str "Alice")],
      Json.obj [("name", Json.str "Bob"), ("id", Json.num 2)]]
     ["id", "name"] (by decide)⟩

/-! ## Claim C9: path-expansion conflicts -/

theorem xSet_err (c : XJson) (k : String) (v : XJson) (e : ToonErr)
    (h : xSet c k v = .error e) : e = .rangeError := by
  cases c with
  | obj kvs => exact Except.noConfusion h
  | arr elems props =>
    simp only [xSet] at h
    by_cases hk : k = "length"
    · rw [if_pos hk] at h
      cases hjl : jsToArrayLength v with
      | some n =>
        simp only [hjl] at h
        exact Except.noConfusion h
      | none =>
        simp only [hjl] at h
        exact (Except.error.inj h).symm
    · rw [if_neg hk] at h
      exact Except.noConfusion h
  | null => exact Except.noConfusion h
  | bool b => exact Except.noConfusion h
  | num q => exact Except.noConfusion h
  | str s => exact Except.noConfusion h

/-- Non-strict path expansion never produces an expansion-conflict or
expansion-duplicate error: every error of the four mutually recursive
walkers under `strict = false` is the model's fuel exhaustion or the
`RangeError` of an invalid array-length write. -/
theorem expandErr_nonstrict :
    ∀ fuel : Nat,
      (∀ v e, expandPaths fuel v false = .error e →
        e.isConflictErr = false) ∧
      (∀ xs e, expandList fuel xs false = .error e →
        e.isConflictErr = false) ∧
      (∀ kvs res e,
        expandEntries fuel kvs false res = .error e →
          e.isConflictErr = false) ∧
      (∀ cur segs seen val e,
        expandInsert fuel cur segs seen val false = .error e →
          e.isConflictErr = false) := by
  intro fuel
  induction fuel with
  | zero =>
    refine ⟨fun v e h => ?_, fun xs e h => ?_, fun kvs res e h => ?_,
      fun cur segs seen val e h => ?_⟩
    all_goals (rw [← Except.error.inj h]; rfl)
  | succ fuel ih =>
    obtain ⟨ihP, ihL, ihE, ihI⟩ := ih
    refine ⟨fun v e h => ?_, fun xs e h => ?_, fun kvs res e h => ?_,
      fun cur segs seen val e h => ?_⟩
    · cases v with
      | obj kvs2 =>
        simp only [expandPaths] at h
        exact ihE kvs2 (.obj []) e h
      | arr elems props =>
        simp only [expandPaths] at h
        exact ihL elems e (exceptMapErr _ _ e h)
      | num q => exact Except.noConfusion h
      | str s => exact Except.noConfusion h
      | bool b => exact Except.noConfusion h
      | null => exact Except.noConfusion h
    · cases xs with
      | nil => exact Except.noConfusion h
      | cons x rest =>
        simp only [expandList] at h
        rcases exceptBindErr _ _ _ h with h1 | ⟨x', hx, h2⟩
        · exact ihP x e h1
        · rcases exceptBindErr _ _ _ h2 with h3 | ⟨r', hr, h4⟩
          · exact ihL rest e h3
          · exact Except.noConfusion h4
    · cases kvs with
      | nil => exact Except.noConfusion h
      | cons kv rest =>
        obtain ⟨key, val2⟩ := kv
        simp only [expandEntries] at h
        split at h
        · rcases exceptBindErr _ _ _ h with h1 | ⟨result', hres, h2⟩
          · exact ihI res _ [] val2 e h1
          · exact ihE rest result' e h2
        · rcases exceptBindErr _ _ _ h with h1 | ⟨v', hv, h2⟩
          · exact ihP val2 e h1
          · rcases exceptBindErr _ _ _ h2 with h3 | ⟨result', hres, h4⟩
            · rw [xSet_err _ _ _ _ h3]
              rfl
            · exact ihE rest result' e h4
    · cases segs with
      | nil => exact Except.noConfusion h
      | cons s rest =>
        cases rest with
        | nil =>
          simp only [expandInsert] at h
          rcases exceptBindErr _ _ _ h with h1 | ⟨v', hv, h2⟩
          · exact ihP val e h1
          · simp only [Bool.false_and, Bool.false_eq_true, if_false] at h2
            rw [xSet_err _ _ _ _ h2]
            rfl
        | cons s2 rest2 =>
          cases hG : xGet cur s with
          | none =>
            simp only [expandInsert, hG] at h
            rcases exceptBindErr _ _ _ h with h1 | ⟨cur', hc, h2⟩
            · rw [xSet_err _ _ _ _ h1]
              rfl
            · rcases exceptBindErr _ _ _ h2 with h3 | ⟨sub, hs, h4⟩
              · exact ihI (.obj []) (s2 :: rest2) (seen ++ [s]) val e h3
              · rw [xSet_err _ _ _ _ h4]
                rfl
          | some c =>
            by_cases hcont : isContainerX c = true
            · simp only [expandInsert, hG, if_pos hcont] at h
              rcases exceptBindErr _ _ _ h with h1 | ⟨sub, hs, h2⟩
              · exact ihI c (s2 :: rest2) (seen ++ [s]) val e h1
              · rw [xSet_err _ _ _ _ h2]
                rfl
            · simp only [expandInsert, hG] at h
              rw [if_neg hcont, if_neg (show ¬(false = true) by simp)] at h
              rcases exceptBindErr _ _ _ h with h1 | ⟨cur', hc, h2⟩
              · rw [xSet_err _ _ _ _ h1]
                rfl
              · rcases exceptBindErr _ _ _ h2 with h3 | ⟨sub, hs, h4⟩
                · exact ihI (.obj []) (s2 :: rest2) (seen ++ [s]) val e h3
                · rw [xSet_err _ _ _ _ h4]
                  rfl

/-- Claim C9, counterexample: the parsed object `{"a": [1], "a.b": 2}` has
the intermediate segment `a` already holding a non-object value (an
array), so the claim requires strict expansion to raise an
expansion-conflict error; instead the source's `typeof === 'object'` test
lets the array pass, the walk descends into it, and strict expansion
succeeds, the expanded value landing as an expando property of the array
object that the JSON view cannot observe. -/
theorem c9_cex_array_intermediate_no_conflict :
    expandPathsTop (.obj [("a", .arr [.num 1]), ("a.b", .num 2)]) true =
      .ok (.obj [("a", .arr [.num 1])]) := by decide

set_option maxRecDepth 16384 in
/-- Claim C9 as amended.  Strict expansion raises an expansion-conflict
error when an intermediate segment's own property holds a primitive or
`null`, and an expansion-duplicate error when the final segment's own
property exists — for an array this includes its ever-present `length`
and any property a previous dotted key landed on it; but an intermediate
segment holding an ARRAY passes the `typeof === 'object'` test and is
descended into with no conflict, its writes invisible to the JSON view.
Non-strict expansion never raises a conflict or duplicate error (every
error is fuel exhaustion or a `RangeError`) and overwrites with
last-write-wins; it does raise a `RangeError` when an invalid value lands
on an array's `length`, and a valid one visibly resizes the array. -/
theorem c9_amended_expansion_conflicts :
    (∀ (fuel : Nat) (cur : XJson) (s s2 : String) (rest seen : List String)
        (val : XJson) (q : XJson),
      xGet cur s = some q → isContainerX q = false →
      expandInsert (fuel + 1) cur (s :: s2 :: rest) seen val true =
        .error (.expansionConflict (pathJoin (seen ++ [s])))) ∧
    (∀ (fuel : Nat) (cur : XJson) (last : String) (seen : List String)
        (val : XJson) (v' : XJson),
      (xGet cur last).isSome = true →
      expandPaths fuel val true = .ok v' →
      expandInsert (fuel + 1) cur [last] seen val true =
        .error (.expansionDuplicate (pathJoin (seen ++ [last])))) ∧
    (∀ fuel v e, expandPaths fuel v false = .error e →
      e.isConflictErr = false) ∧
    expandPathsTop (.obj [("a", .num 1), ("a.b", .num 2)]) true =
      .error (.expansionConflict "a") ∧
    expandPathsTop (.obj [("a", .obj [("b", .num 1)]), ("a.b", .num 2)])
        true = .error (.expansionDuplicate "a.b") ∧
    expandPathsTop
        (.obj [("a", .arr [.num 5]), ("a.b", .num 1), ("a.b.c", .num 2)])
        true = .error (.expansionConflict "a.b") ∧
    parseDoc { expandPaths := .safe } "a[1]: 5\na.length: 2" =
      .error (.expansionDuplicate "a.length") ∧
    expandPathsTop (.obj [("a", .num 1), ("a.b", .num 2)]) false =
      .ok (.obj [("a", .obj [("b", .num 2)])]) ∧
    expandPathsTop (.obj [("a", .obj [("b", .num 1)]), ("a.b", .num 2)])
        false = .ok (.obj [("a", .obj [("b", .num 2)])]) ∧
    parseDoc { strict := false, expandPaths := .safe }
        "a[1]: 5\na.length: 2" = .ok (.obj [("a", .arr [.num 5, .null])]) ∧
    parseDoc { strict := false, expandPaths := .safe }
        "a[1]: 5\na.length: x" = .error .rangeError := by
  refine ⟨?_, ?_, ?_, by decide, by decide, by decide, by decide,
    by decide, by decide, by decide, by decide⟩
  · intro fuel cur s s2 rest seen val q hG hq
    cases q with
    | obj o => exact absurd hq (by simp [isContainerX])
    | arr a p => exact absurd hq (by simp [isContainerX])
    | num n => simp [expandInsert, hG, isContainerX]
    | str sv => simp [expandInsert, hG, isContainerX]
    | bool b => simp [expandInsert, hG, isContainerX]
    | null => simp [expandInsert, hG, isContainerX]
  · intro fuel cur last seen val v' hsome hok
    simp only [expandInsert, hok, exceptBind_ok, hsome, Bool.true_and,
      if_true]
  · intro fuel v e h
    exact (expandErr_nonstrict fuel).1 v e h

/-- Witness for the amended C9 theorem at concrete inputs: a primitive
own property at an intermediate segment triggers the strict conflict
error, and a non-strict error (here the model's fuel exhaustion) is never
a conflict error. -/
theorem c9_witness :
    xGet (XJson.obj [("a", XJson.num 1)]) "a" = some (XJson.num 1) ∧
    isContainerX (XJson.num 1) = false ∧
    expandInsert 1 (XJson.obj [("a", XJson.num 1)]) ["a", "b"] []
        (XJson.num 2) true =
      .error (.expansionConflict (pathJoin ([] ++ ["a"]))) ∧
    expandPaths 0 (XJson.num 1) false = .error .outOfFuel ∧
    ToonErr.outOfFuel.isConflictErr = false := by
  refine ⟨rfl, rfl, ?_, rfl, ?_⟩
  · exact c9_amended_expansion_conflicts.1 0 (XJson.obj [("a", XJson.num 1)])
      "a" "b" [] [] (XJson.num 2) (XJson.num 1) rfl rfl
  · exact c9_amended_expansion_conflicts.2.2.1 0 (XJson.num 1) .outOfFuel
      rfl

end Toon
